import Mathlib

/-!
Verification development for the `cli-ai` repository.

The development shallowly embeds the parts of the code the claims are
about:
* `src/cli_ai/agent.py` — the output normalizer `_clean_command`;
* `src/cli_ai/tools.py` — the five read-only filesystem tools and the
  `execute_tool` dispatcher, over an explicit filesystem tree model;
* `src/cli_ai/llm/manager.py` — the tool-calling orchestration loop
  `LLMManager.generate`, with the provider modelled as a response
  oracle (one response per provider call).

Python strings are modelled as `List Char`; Python machine behaviour
(negative-index slicing, `str.strip`, `str.split`, `re.sub` with the
concrete pattern used by the code) is reproduced faithfully.
-/

namespace CliAI

/-- Decidable equality for `Except`, used to evaluate tool results on
concrete inputs. -/
instance {ε α : Type} [DecidableEq ε] [DecidableEq α] : DecidableEq (Except ε α) :=
  fun a b =>
    match a, b with
    | .ok x, .ok y =>
      if h : x = y then isTrue (by rw [h]) else isFalse (by simp [h])
    | .error x, .error y =>
      if h : x = y then isTrue (by rw [h]) else isFalse (by simp [h])
    | .ok _, .error _ => isFalse (by simp)
    | .error _, .ok _ => isFalse (by simp)

/-- Python strings are modelled as lists of characters. -/
abbrev Chars := List Char

/-- Encode a Lean string literal as a `Chars` value. -/
def cstr (s : String) : Chars := s.toList

/-- The Python whitespace set used by `str.strip()` and `\s`:
space, tab, newline, carriage return, vertical tab, form feed. -/
def pyWS (c : Char) : Bool :=
  c = ' ' || c = '\t' || c = '\n' || c = '\r' || c = Char.ofNat 11 || c = Char.ofNat 12

/-- Remove all trailing characters satisfying `p` (right side of a Python strip). -/
def stripRight (p : Char → Bool) (s : Chars) : Chars :=
  (s.reverse.dropWhile p).reverse

/-- Python `str.strip()`: drop leading and trailing whitespace. -/
def pyStrip (s : Chars) : Chars :=
  stripRight pyWS (s.dropWhile pyWS)

/-- Python `str.strip("`")`: drop all leading and trailing backticks. -/
def stripTicks (s : Chars) : Chars :=
  stripRight (fun c => c = '`') (s.dropWhile (fun c => c = '`'))

/-- Python `text.split(sep)` for a one-character separator, keeping
empty pieces (`"".split(sep) == [""]`). -/
def splitOnChar (sep : Char) : Chars → List Chars
  | [] => [[]]
  | c :: rest =>
    if c = sep then [] :: splitOnChar sep rest
    else
      match splitOnChar sep rest with
      | l :: ls => (c :: l) :: ls
      | [] => [[c]]

/-- Python `text.split("\n")`. -/
def splitNL : Chars → List Chars := splitOnChar '\n' 

/-- Python `"\n".join(lines)`. -/
def joinNL (ls : List Chars) : Chars :=
  List.intercalate ['\n'] ls

/-- Python `text.startswith(lit)`. -/
def startsWithLit (lit s : Chars) : Bool := lit.isPrefixOf s

/-- Python `text.endswith(lit)`: the last `lit.length` characters equal `lit`. -/
def endsWithLit (lit s : Chars) : Bool :=
  s.drop (s.length - lit.length) == lit

/-- Python `needle in hay` for strings: substring containment. -/
def containsSub (needle : Chars) : Chars → Bool
  | [] => needle.isPrefixOf []
  | c :: rest => needle.isPrefixOf (c :: rest) || containsSub needle rest

/-! ## The regex step of `_clean_command`

`agent.py` runs `re.sub(r"<function=[^>]*>\{[^}]*\}</function>\s*", "", text)`.
The pattern is deterministic (each `[^x]*x` part consumes up to the first
`x`), so `re.sub` behaviour — leftmost non-overlapping matches removed in
one scan — is reproduced by `fnSub` below. -/

/-- Consume characters up to and including the first occurrence of `stop`
(the regex fragment `[^stop]*stop`); `none` if `stop` never occurs. -/
def chompUntil (stop : Char) : Chars → Option Chars
  | [] => none
  | c :: rest => if c = stop then some rest else chompUntil stop rest

/-- Consume a literal; `none` if the input does not start with it. -/
def dropLit (lit s : Chars) : Option Chars :=
  if lit.isPrefixOf s then some (s.drop lit.length) else none

/-- Try to match `<function=[^>]*>\{[^}]*\}</function>\s*` at the start of
the input; on success return the input remaining after the match. -/
def tryMatch (s : Chars) : Option Chars :=
  (dropLit (cstr "<function=") s).bind fun s1 =>
    (chompUntil '>' s1).bind fun s2 =>
      (dropLit [Char.ofNat 123] s2).bind fun s3 =>
        (chompUntil (Char.ofNat 125) s3).bind fun s4 =>
          (dropLit (cstr "</function>") s4).bind fun s5 =>
            some (s5.dropWhile pyWS)

theorem chompUntil_length {stop : Char} : ∀ {s r : Chars},
    chompUntil stop s = some r → r.length < s.length := by
  intro s
  induction s with
  | nil => intro r h; simp [chompUntil] at h
  | cons c rest ih =>
    intro r h
    simp only [chompUntil] at h
    split at h
    · cases h; simp
    · exact Nat.lt_trans (ih h) (by simp)

theorem dropLit_length {lit s r : Chars} (h : dropLit lit s = some r) :
    r.length ≤ s.length := by
  simp only [dropLit] at h
  split at h
  · cases h; simp
  · cases h

theorem tryMatch_length {s r : Chars} (h : tryMatch s = some r) :
    r.length < s.length := by
  simp only [tryMatch, Option.bind_eq_bind, Option.bind_eq_some] at h
  obtain ⟨s1, h1, s2, h2, s3, h3, s4, h4, s5, h5, h6⟩ := h
  cases h6
  have l1 : s1.length < s.length := by
    simp only [dropLit] at h1
    split at h1
    · rename_i hp
      cases h1
      have : 0 < (cstr "<function=").length := by decide
      have hl := (List.isPrefixOf_iff_prefix.mp hp).length_le
      simp [List.length_drop]
      omega
    · cases h1
  calc (s5.dropWhile pyWS).length ≤ s5.length :=
        (List.dropWhile_suffix pyWS).sublist.length_le
    _ ≤ s4.length := dropLit_length h5
    _ < s3.length := chompUntil_length h4
    _ ≤ s2.length := dropLit_length h3
    _ < s1.length := chompUntil_length h2
    _ < s.length := l1

/-- Fuel-based worker for `fnSub` (structural recursion, so concrete
inputs evaluate in the kernel).  The fuel is always at least the input
length, so the `0, c :: rest` fallback is never reached from `fnSub`. -/
def fnSubGo : Nat → Chars → Chars
  | _, [] => []
  | 0, c :: rest => c :: rest
  | fuel + 1, c :: rest =>
    match tryMatch (c :: rest) with
    | some rest' => fnSubGo fuel rest'
    | none => c :: fnSubGo fuel rest

/-- One left-to-right scan removing every match of the pseudo-function-call
pattern, as `re.sub(..., "", text)` does. -/
def fnSub (s : Chars) : Chars := fnSubGo s.length s

theorem fnSubGo_irrel : ∀ (fuel₁ fuel₂ : Nat) (s : Chars),
    s.length ≤ fuel₁ → s.length ≤ fuel₂ → fnSubGo fuel₁ s = fnSubGo fuel₂ s := by
  intro fuel₁
  induction fuel₁ with
  | zero =>
    intro fuel₂ s h1 _
    cases s with
    | nil => cases fuel₂ <;> rfl
    | cons c rest => simp at h1
  | succ f ih =>
    intro fuel₂ s h1 h2
    cases s with
    | nil => cases fuel₂ <;> rfl
    | cons c rest =>
      cases fuel₂ with
      | zero => simp at h2
      | succ f2 =>
        simp only [fnSubGo]
        cases hm : tryMatch (c :: rest) with
        | some rest' =>
          have hlt := tryMatch_length hm
          simp only [List.length_cons] at hlt h1 h2
          exact ih f2 rest' (by omega) (by omega)
        | none =>
          simp only [List.length_cons] at h1 h2
          rw [ih f2 rest (by omega) (by omega)]

/-- The recursion equation of `fnSub` on a nonempty input. -/
theorem fnSub_cons (c : Char) (rest : Chars) :
    fnSub (c :: rest) = match tryMatch (c :: rest) with
      | some rest' => fnSub rest'
      | none => c :: fnSub rest := by
  show fnSubGo (rest.length + 1) (c :: rest) = _
  simp only [fnSubGo]
  cases hm : tryMatch (c :: rest) with
  | some rest' =>
    have hlt := tryMatch_length hm
    simp only [List.length_cons] at hlt
    exact fnSubGo_irrel _ _ _ (by omega) (by omega)
  | none => rfl

/-- Step 2 of `_clean_command`: remove a code block wrapper (drop the
first and last line only when more than two lines exist, then
re-`strip`). -/
def stripFence (text : Chars) : Chars :=
  if startsWithLit (cstr "```") text && endsWithLit (cstr "```") text then
    let lines := splitNL text
    let lines := if lines.length > 2 then (lines.drop 1).dropLast else lines
    pyStrip (joinNL lines)
  else text

/-- Step 3 of `_clean_command`: remove single-line backtick wrapping
(Python `strip("`")` removes *all* leading/trailing backticks). -/
def stripTickWrap (text : Chars) : Chars :=
  if startsWithLit (cstr "`") text && endsWithLit (cstr "`") text
      && !(text.contains '\n') then
    stripTicks text
  else text

/-- Step 5 of `_clean_command`: remove one leading `"$ "` prompt marker. -/
def stripDollar (text : Chars) : Chars :=
  if startsWithLit (cstr "$ ") text then text.drop 2 else text

/-- Step 6 of `_clean_command`: when more than one non-empty stripped
line remains, keep the lines that are not `#`-prefixed or that equal the
last line, and take the last of those. -/
def pickLastLine (text : Chars) : Chars :=
  let lines := ((splitNL (pyStrip text)).map pyStrip).filter (· ≠ [])
  if lines.length > 1 then
    let last := lines.getLastD []
    let cmdLines := lines.filter (fun l => !(startsWithLit (cstr "#") l) || l = last)
    if cmdLines ≠ [] then cmdLines.getLastD text else text
  else text

/-- The output normalizer `_clean_command` of `src/cli_ai/agent.py`:
`strip`, fence removal, backtick-wrap removal, markup-regex removal,
`"$ "` removal, last-line selection, final `strip` — in source order. -/
def cleanCommand (s : Chars) : Chars :=
  pyStrip (pickLastLine (stripDollar (fnSub (stripTickWrap (stripFence (pyStrip s))))))

/-! ## Path model (`_resolve_safe_path` of `src/cli_ai/tools.py`)

Canonical absolute paths are lists of components (no `.`, `..`, or empty
components), as produced by `pathlib.Path.resolve()`.  The working
directory is assumed already canonical (the code canonicalizes it with
`Path(cwd).resolve()`). -/

/-- Process path components against an accumulator the way `resolve()`
does: `..` pops one component (a no-op at the root), `.` and empty
components are dropped. -/
def resolveComps : List String → List String → List String
  | acc, [] => acc
  | acc, c :: rest =>
    if c = ".." then resolveComps acc.dropLast rest
    else if c = "." ∨ c = "" then resolveComps acc rest
    else resolveComps (acc ++ [c]) rest

/-- Split a path string into components, dropping empty pieces
(`pathlib` treats `a//b` like `a/b`). -/
def pathParts (s : String) : List String :=
  (((splitOnChar '/') (cstr s)).filter (· ≠ [])).map List.asString

/-- `(cwd_path / path_str).resolve()`: an absolute `path_str` ignores the
working directory, a relative one is resolved against it. -/
def resolveUnder (cwd : List String) (s : String) : List String :=
  resolveComps (if startsWithLit (cstr "/") (cstr s) then [] else cwd) (pathParts s)

/-- `str(path)` for a canonical absolute path. -/
def pathToString (p : List String) : String :=
  "/" ++ String.intercalate "/" p

/-- The check the code performs: `str(target).startswith(str(cwd_path))`. -/
def underRootStr (cwd target : List String) : Bool :=
  startsWithLit (cstr (pathToString cwd)) (cstr (pathToString target))

/-- The property the spec demands: the target is the root or one of its
descendants (component-wise prefix). -/
def isDescendant (cwd target : List String) : Bool :=
  cwd.isPrefixOf target

/-- `_resolve_safe_path`: resolve relative to the working directory and
raise `ValueError` (modelled as `.error`) when the *string* prefix check
fails. -/
def resolveSafePath (pathStr : String) (cwd : List String) :
    Except String (List String) :=
  let target := resolveUnder cwd pathStr
  if underRootStr cwd target then .ok target
  else .error ("Path traversal blocked: " ++ pathStr)

/-! ## Filesystem model

The filesystem is a flat, finite map from canonical absolute paths
(component lists) to inodes.  Directories appear as explicit entries.
A file inode stores its byte size, whether `_is_binary` would flag it
(a null byte in the first 8KB), and its text content as the list of
lines `read_text().splitlines()` returns.  The enumeration order of the
map models the (unspecified) directory-scan order of `glob`/`rglob`. -/

inductive INode where
  | file (size : Nat) (binary : Bool) (lines : List Chars)
  | dir
deriving Repr, DecidableEq

abbrev FS := List (List String × INode)

/-- Look a canonical path up in the filesystem; `none` models
`exists()` returning false. -/
def FS.lookup (fs : FS) (p : List String) : Option INode :=
  (fs.find? (fun e => e.1 == p)).map (·.2)

def INode.isDir : INode → Bool
  | .dir => true
  | .file _ _ _ => false

/-- The direct children of a directory path: entries one component
deeper, with their names (`Path.iterdir`). -/
def childrenOf (fs : FS) (p : List String) : List (String × INode) :=
  fs.filterMap fun e =>
    if e.1.length = p.length + 1 && p.isPrefixOf e.1 then
      some (e.1.getLastD "", e.2)
    else none

/-- All strict descendants of a directory path, as relative component
paths in enumeration order; models the candidate set both of
`glob.iglob(<target>/**/<pattern>, recursive=True)` and of
`target.rglob("*")`. -/
def descendantsOf (fs : FS) (p : List String) : List (List String) :=
  fs.filterMap fun e =>
    if p.isPrefixOf e.1 && decide (e.1.length > p.length) then
      some (e.1.drop p.length)
    else none

/-- `MAX_FILE_SIZE = 100 * 1024`. -/
def MAX_FILE_SIZE : Nat := 100 * 1024

/-- `MAX_FILE_LINES`: the config default `max_file_lines = 500`
(config-file overrides are out of scope). -/
def MAX_FILE_LINES : Nat := 500

/-- `MAX_SEARCH_RESULTS = 50`. -/
def MAX_SEARCH_RESULTS : Nat := 50

/-- `MAX_LIST_DEPTH = 3` (a Python int, compared with the `depth`
argument via `min`). -/
def MAX_LIST_DEPTH : Int := 3

/-- The shared head of every tool: `_resolve_safe_path` first — its
`ValueError` propagates (`.error`) — then a total, string-returning
body. -/
def withSafePath (pathStr : String) (cwd : List String)
    (body : List String → Chars) : Except String Chars :=
  match resolveSafePath pathStr cwd with
  | .error e => .error e
  | .ok target => .ok (body target)

/-- `read_file` of `src/cli_ai/tools.py`.  A `.error` result models the
`ValueError` propagating out of `_resolve_safe_path`. -/
def read_file (fs : FS) (path : String) (cwd : List String) :
    Except String Chars :=
  withSafePath path cwd fun target =>
    match fs.lookup target with
    | none => cstr "Error: File not found: " ++ cstr path
    | some .dir => cstr "Error: Not a file: " ++ cstr path
    | some (.file size bin lines) =>
      if size > MAX_FILE_SIZE then
        cstr "Error: File too large (>" ++ cstr (toString (MAX_FILE_SIZE / 1024))
          ++ cstr "KB): " ++ cstr path
      else if bin then
        cstr "Error: Binary file, cannot read: " ++ cstr path
      else if lines.length > MAX_FILE_LINES then
        joinNL (lines.take MAX_FILE_LINES) ++ cstr "\n\n[Truncated: showing "
          ++ cstr (toString MAX_FILE_LINES) ++ cstr "/"
          ++ cstr (toString lines.length) ++ cstr " lines]"
      else joinNL lines

/-- The hidden/noise filter of `list_directory`:
`entry.name.startswith(".") or entry.name in ("node_modules", "__pycache__", ".git")`. -/
def hiddenName (n : String) : Bool :=
  startsWithLit (cstr ".") (cstr n) || n == "node_modules" || n == "__pycache__" || n == ".git"

/-- The size formatting of `list_directory`. -/
def sizeStr (size : Nat) : String :=
  if size < 1024 then toString size ++ "B"
  else if size < 1024 * 1024 then toString (size / 1024) ++ "KB"
  else toString (size / (1024 * 1024)) ++ "MB"

/-- Lexicographic order on character lists (Python string `<=`,
comparing code points). -/
def lexLe : Chars → Chars → Bool
  | [], _ => true
  | _ :: _, [] => false
  | a :: as, b :: bs => if a = b then lexLe as bs else decide (a.toNat < b.toNat)

/-- Insert into a sorted list (helper for `sortLe`). -/
def insertLe {α : Type} (le : α → α → Bool) (x : α) : List α → List α
  | [] => [x]
  | y :: ys => if le x y then x :: y :: ys else y :: insertLe le x ys

/-- Insertion sort modelling Python `sorted`. -/
def sortLe {α : Type} (le : α → α → Bool) : List α → List α
  | [] => []
  | x :: xs => insertLe le x (sortLe le xs)

/-- The sort key of `list_directory`: `(not e.is_dir(), e.name)` —
directories first, then by name. -/
def entryLe (a b : String × INode) : Bool :=
  if a.2.isDir = b.2.isDir then lexLe (cstr a.1) (cstr b.1) else a.2.isDir

/-- The `_walk` recursion of `list_directory`.  The fuel argument counts
the directory levels still allowed *below* the current one
(`depth - current_depth`); entries at the last level are listed without
recursing. -/
def walkDir (fs : FS) : Nat → List String → Chars → List Chars
  | 0, p, pre =>
    (sortLe entryLe (childrenOf fs p)).flatMap fun e =>
      if hiddenName e.1 then []
      else match e.2 with
        | .dir => [pre ++ cstr e.1 ++ cstr "/"]
        | .file size _ _ =>
          [pre ++ cstr e.1 ++ cstr "  (" ++ cstr (sizeStr size) ++ cstr ")"]
  | d + 1, p, pre =>
    (sortLe entryLe (childrenOf fs p)).flatMap fun e =>
      if hiddenName e.1 then []
      else match e.2 with
        | .dir =>
          (pre ++ cstr e.1 ++ cstr "/") :: walkDir fs d (p ++ [e.1]) (pre ++ cstr "  ")
        | .file size _ _ =>
          [pre ++ cstr e.1 ++ cstr "  (" ++ cstr (sizeStr size) ++ cstr ")"]

/-- `list_directory` of `src/cli_ai/tools.py`. -/
def list_directory (fs : FS) (path : String) (cwd : List String)
    (depth : Int) : Except String Chars :=
  withSafePath path cwd fun target =>
    match fs.lookup target with
    | none => cstr "Error: Directory not found: " ++ cstr path
    | some (.file _ _ _) => cstr "Error: Not a directory: " ++ cstr path
    | some .dir =>
      let depth := min depth MAX_LIST_DEPTH
      let lines := if depth < 1 then [] else walkDir fs (depth - 1).toNat target []
      if lines = [] then cstr "(empty directory)" else joinNL lines

/-! ## `search_files` and `grep_files` -/

/-- Fuel-based worker for `fnmatchChars`; the fuel is always at least
`p.length + name.length`, so the `0, _ :: _, _` fallback is never
reached from `fnmatchChars`. -/
def fnmatchGo : Nat → Chars → Chars → Bool
  | _, [], [] => true
  | _, [], _ :: _ => false
  | 0, _ :: _, _ => false
  | fuel + 1, c :: ps, ns =>
    if c = '*' then
      fnmatchGo fuel ps ns ||
        (match ns with
         | [] => false
         | _ :: ns' => fnmatchGo fuel (c :: ps) ns')
    else
      match ns with
      | [] => false
      | n :: ns' => (c = '?' || c = n) && fnmatchGo fuel ps ns'

/-- `fnmatch`-style matching of a file name against a glob pattern
(`*` and `?`; character classes are not modelled, the tool schema only
advertises patterns like `*.py`). -/
def fnmatchChars (p name : Chars) : Bool :=
  fnmatchGo (p.length + name.length) p name

/-- The hidden/noise filter `search_files` applies to the *absolute*
path parts of each match. -/
def searchNoise (c : String) : Bool :=
  startsWithLit (cstr ".") (cstr c) || c == "node_modules" || c == "__pycache__"

/-- The match-collecting loop of `search_files`: skip noisy paths,
append, and break once `MAX_SEARCH_RESULTS` matches are collected. -/
def searchCollect (target : List String) :
    List (List String) → List (List String) → List (List String)
  | [], acc => acc
  | p :: rest, acc =>
    if (target ++ p).any searchNoise then searchCollect target rest acc
    else
      let acc' := acc ++ [p]
      if acc'.length ≥ MAX_SEARCH_RESULTS then acc'
      else searchCollect target rest acc'

/-- Relative path rendering `str(match_path.relative_to(target))`. -/
def relStr (p : List String) : Chars := cstr (String.intercalate "/" p)

/-- The glob candidates and collected matches of `search_files` on a
directory target. -/
def searchResult (fs : FS) (target : List String) (pattern : String) :
    List (List String) :=
  let cands := (descendantsOf fs target).filter
    (fun p => fnmatchChars (cstr pattern) (cstr (p.getLastD "")))
  searchCollect target cands []

/-- `search_files` of `src/cli_ai/tools.py`. -/
def search_files (fs : FS) (pattern path : String) (cwd : List String) :
    Except String Chars :=
  withSafePath path cwd fun target =>
    match fs.lookup target with
    | some .dir =>
      let found := searchResult fs target pattern
      if found = [] then
        cstr "No files matching '" ++ cstr pattern ++ cstr "' found in "
          ++ cstr path
      else
        let res := joinNL (found.map relStr)
        if found.length = MAX_SEARCH_RESULTS then
          res ++ cstr "\n\n[Truncated: showing first "
            ++ cstr (toString MAX_SEARCH_RESULTS) ++ cstr " results]"
        else res
    | _ => cstr "Error: Directory not found: " ++ cstr path

/-- The hidden/noise filter `grep_files` applies to the *relative*
path parts of each candidate. -/
def grepNoise (c : String) : Bool :=
  startsWithLit (cstr ".") (cstr c) || c == "node_modules" || c == "__pycache__"
    || c == "build" || c == "dist" || c == ".git"

/-- Python `str.lower()` (ASCII-level model). -/
def lowerChars (s : Chars) : Chars := s.map Char.toLower

/-- `max_files = 200` — the scanned-file cap local to `grep_files`. -/
def GREP_MAX_FILES : Nat := 200

/-- The per-file line loop of `grep_files`: append a match per line
containing the pattern and break once `MAX_SEARCH_RESULTS` matches are
accumulated. -/
def grepLines (rel cmpPat : Chars) (ic : Bool) :
    List Chars → Nat → List Chars → List Chars
  | [], _, acc => acc
  | l :: rest, n, acc =>
    let cmpLine := if ic then lowerChars l else l
    if containsSub cmpPat cmpLine then
      let acc' := acc ++ [rel ++ cstr ":" ++ cstr (toString n) ++ cstr ": " ++ pyStrip l]
      if acc'.length ≥ MAX_SEARCH_RESULTS then acc'
      else grepLines rel cmpPat ic rest (n + 1) acc'
    else grepLines rel cmpPat ic rest (n + 1) acc

/-- The file-scanning loop of `grep_files` over the sorted candidate
paths (relative to `target`), carrying the scanned-file counter and the
accumulated matches. -/
def grepScan (fs : FS) (target : List String) (cmpPat : Chars) (ic : Bool) :
    List (List String) → Nat → List Chars → Nat × List Chars
  | [], scanned, acc => (scanned, acc)
  | p :: rest, scanned, acc =>
    if scanned ≥ GREP_MAX_FILES then (scanned, acc)
    else if p.any grepNoise then grepScan fs target cmpPat ic rest scanned acc
    else
      match fs.lookup (target ++ p) with
      | some (.file size bin lines) =>
        if size > MAX_FILE_SIZE then grepScan fs target cmpPat ic rest scanned acc
        else if bin then grepScan fs target cmpPat ic rest scanned acc
        else
          let scanned' := scanned + 1
          let acc' := grepLines (relStr p) cmpPat ic lines 1 acc
          if acc'.length ≥ MAX_SEARCH_RESULTS then (scanned', acc')
          else grepScan fs target cmpPat ic rest scanned' acc'
      | _ => grepScan fs target cmpPat ic rest scanned acc

/-- Order on candidate paths: `sorted(target.rglob("*"))` sorts by the
full path string; all candidates share the `str(target) + "/"` prefix,
so this equals lexicographic order on the joined relative path. -/
def pathLe (p q : List String) : Bool :=
  lexLe (relStr p) (relStr q)

/-- The scanned-file count and collected matches of `grep_files` on a
directory target. -/
def grepResult (fs : FS) (target : List String) (pattern : String)
    (ic : Bool) : Nat × List Chars :=
  let sorted := sortLe pathLe (descendantsOf fs target)
  let cmpPat := if ic then lowerChars (cstr pattern) else cstr pattern
  grepScan fs target cmpPat ic sorted 0 []

/-- `grep_files` of `src/cli_ai/tools.py` (`execute_tool` always uses
the default `ignore_case=True`). -/
def grep_files (fs : FS) (pattern path : String) (cwd : List String)
    (ignoreCase : Bool) : Except String Chars :=
  withSafePath path cwd fun target =>
    match fs.lookup target with
    | some .dir =>
      let sm := grepResult fs target pattern ignoreCase
      if sm.2 = [] then
        cstr "No matches for '" ++ cstr pattern ++ cstr "' in " ++ cstr path
          ++ cstr " (" ++ cstr (toString sm.1) ++ cstr " files searched)"
      else
        let res := joinNL sm.2
        if sm.2.length = MAX_SEARCH_RESULTS then
          res ++ cstr "\n\n[Truncated: showing first "
            ++ cstr (toString MAX_SEARCH_RESULTS) ++ cstr " matches]"
        else res
    | _ => cstr "Error: Directory not found: " ++ cstr path

/-! ## `read_lines` -/

/-- Python slice stop index for `l[a:e]` with `e` possibly negative:
negative values count from the end (clamped at 0), non-negative values
are clamped at the length. -/
def pySliceStop (total : Nat) (e : Int) : Nat :=
  if e < 0 then (e + total).toNat else min e.toNat total

/-- `enumerate(selected, start=i)` rendered as `f"{i}: {line}"`. -/
def numberLines : Int → List Chars → List Chars
  | _, [] => []
  | i, l :: rest => (cstr (toString i) ++ cstr ": " ++ l) :: numberLines (i + 1) rest

/-- `read_lines` of `src/cli_ai/tools.py`.  `start`/`endL` are Python
ints (possibly negative). -/
def read_lines (fs : FS) (path : String) (start endL : Int)
    (cwd : List String) : Except String Chars :=
  withSafePath path cwd fun target =>
    match fs.lookup target with
    | none => cstr "Error: File not found: " ++ cstr path
    | some .dir => cstr "Error: Not a file: " ++ cstr path
    | some (.file _ bin lines) =>
      if bin then cstr "Error: Binary file: " ++ cstr path
      else
        let total := lines.length
        let start' := max 1 start
        let endC := min endL (total : Int)
        if start' > (total : Int) then
          cstr "Error: Start line " ++ cstr (toString start')
            ++ cstr " exceeds file length (" ++ cstr (toString total)
            ++ cstr " lines)"
        else
          let a := (start' - 1).toNat
          let stop := pySliceStop total endC
          let selected := (lines.drop a).take (stop - a)
          let numbered := numberLines start' selected
          let header := cstr "Lines " ++ cstr (toString start') ++ cstr "-"
            ++ cstr (toString endC) ++ cstr " of " ++ cstr (toString total) ++ cstr ":"
          header ++ '\n' :: joinNL numbered

/-! ## `execute_tool` -/

/-- A tool argument value (the JSON scalars the five tools consume). -/
inductive ArgVal where
  | str (s : String)
  | int (n : Int)
deriving Repr, DecidableEq

/-- The `args` mapping handed to `execute_tool`. -/
abbrev ToolArgs := List (String × ArgVal)

def lookupArg (args : ToolArgs) (k : String) : Option ArgVal :=
  (args.find? (fun p => p.1 == k)).map (·.2)

/-- `args[k]` expected to be a string: a missing key models the
`KeyError` Python raises, a non-string value the `TypeError` the tool
body would raise on it. -/
def getStrArg (args : ToolArgs) (k : String) : Except String String :=
  match lookupArg args k with
  | some (.str s) => .ok s
  | some (.int _) => .error ("TypeError: argument '" ++ k ++ "' is not a string")
  | none => .error ("KeyError: '" ++ k ++ "'")

/-- `args.get(k, default)` expected to be a string. -/
def getStrArgD (args : ToolArgs) (k dflt : String) : Except String String :=
  match lookupArg args k with
  | some (.str s) => .ok s
  | some (.int _) => .error ("TypeError: argument '" ++ k ++ "' is not a string")
  | none => .ok dflt

/-- `args[k]` expected to be an integer. -/
def getIntArg (args : ToolArgs) (k : String) : Except String Int :=
  match lookupArg args k with
  | some (.int n) => .ok n
  | some (.str _) => .error ("TypeError: argument '" ++ k ++ "' is not an integer")
  | none => .error ("KeyError: '" ++ k ++ "'")

/-- `args.get(k, default)` expected to be an integer. -/
def getIntArgD (args : ToolArgs) (k : String) (dflt : Int) : Except String Int :=
  match lookupArg args k with
  | some (.int n) => .ok n
  | some (.str _) => .error ("TypeError: argument '" ++ k ++ "' is not an integer")
  | none => .ok dflt

/-- `execute_tool` of `src/cli_ai/tools.py`: the dispatcher the LLM tool
handler uses.  `.error` results model exceptions (ValueError from the
traversal check, KeyError/TypeError from argument access) propagating to
the caller; `.ok` results are the returned strings. -/
def execute_tool (fs : FS) (name : String) (args : ToolArgs)
    (cwd : List String) : Except String Chars :=
  if name = "read_file" then
    (getStrArg args "path").bind fun p => read_file fs p cwd
  else if name = "list_directory" then
    (getStrArgD args "path" ".").bind fun p =>
      (getIntArgD args "depth" 1).bind fun d => list_directory fs p cwd d
  else if name = "search_files" then
    (getStrArg args "pattern").bind fun pat =>
      (getStrArgD args "path" ".").bind fun p => search_files fs pat p cwd
  else if name = "grep_files" then
    (getStrArg args "pattern").bind fun pat =>
      (getStrArgD args "path" ".").bind fun p => grep_files fs pat p cwd true
  else if name = "read_lines" then
    (getStrArg args "path").bind fun p =>
      (getIntArg args "start").bind fun s =>
        (getIntArg args "end").bind fun e => read_lines fs p s e cwd
  else .ok (cstr "Error: Unknown tool '" ++ cstr name ++ cstr "'")


/-! ## The orchestration loop (`LLMManager.generate` of `src/cli_ai/llm/manager.py`)

The provider is modelled as a response oracle `Nat → GenResponse`: the
value at `k` is what the `provider.generate` call number `k` (0-based)
produces.  Besides the returned string, the embedding also returns the
observable trace needed to state the claims: one `Bool` per provider
call (whether tools were passed on that call, `tools=None` modelled as
`false`), and the final conversation list. -/

/-- A parsed tool call (`{"id": ..., "name": ..., "input": ...}`). -/
structure ToolCall where
  id : String
  name : String
  args : ToolArgs
deriving Repr, DecidableEq

/-- What one `provider.generate` call produces: a plain string, a dict
(with optional `text_content`, a `tool_calls` list — empty models a
falsy/missing key — and its `str()` rendering), some other object
(rendered via `str()`), or a raised exception. -/
inductive GenResponse where
  | text (s : String)
  | dict (textContent : Option String) (toolCalls : List ToolCall) (reprS : String)
  | other (reprS : String)
  | fail (e : String)
deriving Repr

/-- A conversation message dict. -/
structure Message where
  role : String
  content : Option String
  tool_calls : List ToolCall
  tool_call_id : Option String
deriving Repr, DecidableEq

/-- The `tool_handler` callable; `.error` models an exception it raises. -/
abbrev ToolHandler := String → ToolArgs → Except String String

/-- The assistant message the loop appends for a tool-call response:
`content = text_content or None`. -/
def assistantMsg (textContent : Option String) (cs : List ToolCall) : Message :=
  { role := "assistant"
    content := if textContent.getD "" = "" then none else textContent
    tool_calls := cs
    tool_call_id := none }

/-- The tool message appended for one tool call: the handler's result,
or `f"Error: {e}"` when the handler raises. -/
def toolResponseMsg (handler : ToolHandler) (tc : ToolCall) : Message :=
  { role := "tool"
    content := some (match handler tc.name tc.args with
                     | .ok r => r
                     | .error e => "Error: " ++ e)
    tool_calls := []
    tool_call_id := some tc.id }

/-- What one tool-call round appends to the conversation: the assistant
message, then one tool message per call in request order. -/
def roundBlock (handler : ToolHandler) (t : Option String) (cs : List ToolCall) :
    List Message :=
  assistantMsg t cs :: cs.map (toolResponseMsg handler)

/-- The synthetic user message injected after the round budget is
exhausted. -/
def forcedMsg : Message :=
  { role := "user"
    content := some ("You have used all available tool calls. "
      ++ "Based on the information gathered, provide your final answer now. "
      ++ "Do NOT call any tools. Return ONLY the shell command.")
    tool_calls := []
    tool_call_id := none }

/-- `final if isinstance(final, str) else str(final)`, with a raised
exception turned into the error-flagged string. -/
def finalAnswer : GenResponse → String
  | .text s => s
  | .dict _ _ rep => rep
  | .other rep => rep
  | .fail e => "# Error after max iterations: " ++ e

/-- The `for iteration in range(max_iterations)` loop of
`LLMManager.generate`, plus the forced final no-tools call when the
budget is exhausted.  Arguments: next provider-call index, remaining
rounds, conversation so far.  Returns (result string, tools-flag per
provider call in order, final conversation). -/
def loopGen (provider : Nat → GenResponse) (handler : ToolHandler)
    (toolsGiven : Bool) :
    Nat → Nat → List Message → String × List Bool × List Message
  | k, 0, conv =>
    (finalAnswer (provider k), [false], conv ++ [forcedMsg])
  | k, fuel + 1, conv =>
    match provider k with
    | .fail e => ("# Error: " ++ e, [toolsGiven], conv)
    | .text s => (s, [toolsGiven], conv)
    | .other rep => (rep, [toolsGiven], conv)
    | .dict t cs rep =>
      if cs.isEmpty then (t.getD rep, [toolsGiven], conv)
      else
        let r := loopGen provider handler toolsGiven (k + 1) fuel
          (conv ++ roundBlock handler t cs)
        (r.1, toolsGiven :: r.2.1, r.2.2)

/-- `LLMManager.generate` (with the selected provider available; the
`conversation = list(messages)` copy is the starting conversation). -/
def generate (provider : Nat → GenResponse) (handler : ToolHandler)
    (toolsGiven : Bool) (messages : List Message) (maxIterations : Nat) :
    String × List Bool × List Message :=
  loopGen provider handler toolsGiven 0 maxIterations messages

/-- The ids carried by `assistant` messages' `tool_calls`, in
conversation order. -/
def assistantIds (conv : List Message) : List String :=
  conv.flatMap fun m => if m.role = "assistant" then m.tool_calls.map (·.id) else []

/-- The `tool_call_id`s carried by `tool` messages, in conversation
order. -/
def toolIds (conv : List Message) : List String :=
  conv.flatMap fun m => if m.role = "tool" then m.tool_call_id.toList else []

/-- The tool-call ids a provider response introduces. -/
def respIds : GenResponse → List String
  | .dict _ cs _ => cs.map (·.id)
  | _ => []

/-- The linkage invariant of the spec: every `tool` message's
`tool_call_id` names exactly one `assistant` `tool_calls` entry strictly
before it, and none after it. -/
def MatchedPrior (conv : List Message) : Prop :=
  ∀ pre m post, conv = pre ++ m :: post → m.role = "tool" →
    ∃ i, m.tool_call_id = some i ∧ (assistantIds pre).count i = 1 ∧
      (assistantIds (m :: post)).count i = 0

/-! ## Spec-side definitions used by amended claims -/

/-- Residual-artifact check on a normalizer output: stripped, not
fence-wrapped, not backtick-wrapped, untouched by the markup regex, no
leading `"$ "`, and at most one non-empty line.  On outputs passing this
check `cleanCommand` is the identity. -/
def isNormalized (r : Chars) : Bool :=
  (pyStrip r == r)
    && !(startsWithLit (cstr "```") r && endsWithLit (cstr "```") r)
    && !(startsWithLit (cstr "`") r && endsWithLit (cstr "`") r && !(r.contains '\n'))
    && (fnSub r == r)
    && !(startsWithLit (cstr "$ ") r)
    && (((splitNL (pyStrip r)).map pyStrip).filter (· ≠ [])).length ≤ 1

/-- A well-formed single-line command: non-empty, free of newlines,
backticks and `<`, not starting or ending with whitespace, and not
starting with a `"$ "` marker. -/
def goodCmd (c : Chars) : Bool :=
  !c.isEmpty
    && c.all (fun a => a ≠ '\n' && a ≠ '`' && a ≠ '<')
    && !(pyWS (c.headD ' '))
    && !(pyWS (c.getLastD ' '))
    && !(startsWithLit (cstr "$ ") c)

/-- A command wrapped in a triple-backtick fenced block. -/
def fenceWrap (c : Chars) : Chars := cstr "```" ++ '\n' :: c ++ '\n' :: cstr "```"

/-- A command wrapped in single-line backticks. -/
def tickWrap (c : Chars) : Chars := '`' :: c ++ ['`']

/-- A command prefixed by a `"$ "` prompt marker. -/
def dollarWrap (c : Chars) : Chars := cstr "$ " ++ c

/-- The `read_lines` behaviour as the (amended) claim words it,
computed independently of the code: clamp `start` up to 1 and `endL`
down to the line count, error when the clamped start exceeds the line
count, and otherwise emit the header followed by the lines numbered
`s..e` fetched by index, where a negative clamped end counts from the
end of the file (Python slice semantics). -/
def readLinesSpec (start endL : Int) (lines : List Chars) : Chars :=
  let total := lines.length
  let s := max 1 start
  let e := min endL (total : Int)
  if s > (total : Int) then
    cstr "Error: Start line " ++ cstr (toString s)
      ++ cstr " exceeds file length (" ++ cstr (toString total) ++ cstr " lines)"
  else
    let eEff : Nat := if e < 0 then (e + total).toNat else e.toNat
    let body := (List.range' s.toNat (eEff + 1 - s.toNat)).map fun i =>
      cstr (toString i) ++ cstr ": " ++ lines.getD (i - 1) []
    cstr "Lines " ++ cstr (toString s) ++ cstr "-" ++ cstr (toString e)
      ++ cstr " of " ++ cstr (toString total) ++ cstr ":" ++ '\n' :: joinNL body

/-! ## Concrete fixtures used by counterexamples and witnesses -/

/-- Working directory `/a/b` beside a sibling `/a/b2` whose absolute
path string shares the prefix `/a/b`. -/
def escapeFS : FS :=
  [([], .dir), (["a"], .dir), (["a", "b"], .dir), (["a", "b2"], .dir),
   (["a", "b2", "secret.txt"], .file 10 false [cstr "TOPSECRET"])]

/-- A root directory holding one three-line text file `a.txt`. -/
def threeFS : FS :=
  [([], .dir), (["a.txt"], .file 18 false [cstr "alpha", cstr "beta", cstr "gamma"])]

/-- The lines of `a.txt` in `threeFS`. -/
def threeLines : List Chars := [cstr "alpha", cstr "beta", cstr "gamma"]

/-- A root directory holding 51 visible files. -/
def bigFS : FS :=
  ([], INode.dir) :: (List.range 51).map fun i =>
    (["f" ++ toString i], INode.file 1 false [])

/-- The `list_directory` output on `bigFS` at depth 1. -/
def listBigOut : Chars :=
  match list_directory bigFS "." [] 1 with
  | .ok s => s
  | .error e => cstr e

/-- A root directory holding one file whose 60 lines all contain `x`. -/
def fiftyFS : FS :=
  [([], INode.dir),
   (["m.txt"], INode.file 100 false ((List.range 60).map fun i => cstr ("x" ++ toString i)))]

/-- The lines of `m.txt` in `fiftyFS`. -/
def fiftyLines : List Chars := (List.range 60).map fun i => cstr ("x" ++ toString i)

/-- A provider script: one tool-call round, then a text answer. -/
def provOnce : Nat → GenResponse
  | 0 => .dict (some "")
      [{ id := "call_0", name := "read_file", args := [("path", .str "a.txt")] }] "r0"
  | _ => .text "ls -la"

/-- A provider that requests one tool call per round, with distinct ids. -/
def provLoop (k : Nat) : GenResponse :=
  .dict none [{ id := "call_" ++ toString k, name := "read_file", args := [] }] "r"

/-- A provider whose every call raises. -/
def provFail : Nat → GenResponse := fun _ => .fail "network down"

/-- A provider returning a tool call on round 0 and raising afterwards. -/
def provFailAt1 : Nat → GenResponse
  | 0 => .dict none [{ id := "c0", name := "t", args := [] }] "r"
  | _ => .fail "boom"

/-- A tool handler that always succeeds. -/
def okHandler : ToolHandler := fun _ _ => .ok "data"

/-- The single user message `process_query` starts the conversation
with. -/
def userMsg : Message :=
  { role := "user", content := some "list files", tool_calls := [], tool_call_id := none }

/-! # Theorems -/

/-- C1: the path-traversal claim fails on the code.  `_resolve_safe_path`
compares canonical paths as *strings* (`str(target).startswith(str(cwd_path))`),
so with working directory `/a/b` the argument `../b2/secret.txt` resolves
to `/a/b2/secret.txt` — outside the working-directory subtree — yet
passes the check, and `read_file` performs the read and returns the file
content instead of a blocked-traversal error. -/
theorem C1_sibling_escape_read :
    resolveUnder ["a", "b"] "../b2/secret.txt" = ["a", "b2", "secret.txt"]
      ∧ isDescendant ["a", "b"] ["a", "b2", "secret.txt"] = false
      ∧ resolveSafePath "../b2/secret.txt" ["a", "b"] = .ok ["a", "b2", "secret.txt"]
      ∧ read_file escapeFS "../b2/secret.txt" ["a", "b"] = .ok (cstr "TOPSECRET") := by
  decide

/-- C2 counterexample: `execute_tool` does not always return a string —
the `ValueError` raised by `_resolve_safe_path` and the `KeyError` from
a missing required argument propagate to the caller. -/
theorem C2_cex_dispatcher_raises :
    execute_tool escapeFS "read_file" [("path", .str "../../x")] ["a", "b"]
      = .error "Path traversal blocked: ../../x"
    ∧ execute_tool escapeFS "read_file" [] ["a", "b"] = .error "KeyError: 'path'" := by
  decide

/-- C7 counterexample: the normalizer is not idempotent.  On `"$ $ ls"`
one application strips one `"$ "` marker, a second application strips
another. -/
theorem C7_cex_not_idempotent :
    cleanCommand (cstr "$ $ ls") = cstr "$ ls"
      ∧ cleanCommand (cleanCommand (cstr "$ $ ls")) = cstr "ls"
      ∧ cleanCommand (cleanCommand (cstr "$ $ ls")) ≠ cleanCommand (cstr "$ $ ls") := by
  decide

/-- C8 counterexample: each guarantee fails on some raw model text —
the empty input yields an empty result; a trailing fence line survives
as the selected last line; a doubled `"$ "` marker keeps a leading
`"$ "`; removing one markup match can splice a new one together, which
the single `re.sub` scan does not revisit. -/
theorem C8_cex_artifacts_survive :
    cleanCommand [] = []
      ∧ cleanCommand (cstr "x\n```") = cstr "```"
      ∧ containsSub (cstr "```") (cleanCommand (cstr "x\n```")) = true
      ∧ startsWithLit (cstr "$ ") (cleanCommand (cstr "$ $ echo hi")) = true
      ∧ cleanCommand (cstr "<func<function=a>\x7b\x7d</function>tion=b>\x7b\x7d</function>")
          = cstr "<function=b>\x7b\x7d</function>"
      ∧ containsSub (cstr "<function=")
          (cleanCommand (cstr "<func<function=a>\x7b\x7d</function>tion=b>\x7b\x7d</function>"))
          = true := by
  decide

set_option maxRecDepth 10000

/-- C9 counterexample: `list_directory` enforces no 50-entry cap and
appends no truncation marker — a directory with 51 visible files yields
51 output lines and no marker. -/
theorem C9_cex_list_directory_uncapped :
    (splitNL listBigOut).length = 51
      ∧ containsSub (cstr "[Truncated") listBigOut = false := by
  decide

/-- C10 counterexample: for `end = -1 < start = 1` on a three-line file
the result is not the header with zero content lines; the negative end
indexes from the end of the file (Python slice semantics), keeping two
lines. -/
theorem C10_cex_negative_end :
    read_lines threeFS "a.txt" 1 (-1) []
      = .ok (cstr "Lines 1--1 of 3:\n1: alpha\n2: beta")
    ∧ read_lines threeFS "a.txt" 1 (-1) [] ≠ .ok (cstr "Lines 1--1 of 3:\n") := by
  decide

/-! ## Orchestration-loop lemmas -/

theorem loopGen_calls_le (provider : Nat → GenResponse) (handler : ToolHandler)
    (tg : Bool) : ∀ (fuel k : Nat) (conv : List Message),
    (loopGen provider handler tg k fuel conv).2.1.length ≤ fuel + 1 := by
  intro fuel
  induction fuel with
  | zero => intro k conv; simp [loopGen]
  | succ f ih =>
    intro k conv
    simp only [loopGen]
    cases provider k with
    | fail e => simp
    | text s => simp
    | other rep => simp
    | dict t cs rep =>
      by_cases hcs : cs.isEmpty
      · simp [hcs]
      · simp only [hcs, Bool.false_eq_true, if_false, List.length_cons]
        have := ih (k + 1) (conv ++ roundBlock handler t cs)
        omega

/-- Unfolding one tool-call round of the loop. -/
theorem loopGen_dict_step (provider : Nat → GenResponse) (handler : ToolHandler)
    (tg : Bool) (k fuel : Nat) (conv : List Message)
    {t : Option String} {cs : List ToolCall} {rep : String}
    (hp : provider k = .dict t cs rep) (hne : cs ≠ []) :
    loopGen provider handler tg k (fuel + 1) conv
      = ((loopGen provider handler tg (k + 1) fuel (conv ++ roundBlock handler t cs)).1,
         tg :: (loopGen provider handler tg (k + 1) fuel (conv ++ roundBlock handler t cs)).2.1,
         (loopGen provider handler tg (k + 1) fuel (conv ++ roundBlock handler t cs)).2.2) := by
  have hcs : cs.isEmpty = false := by
    cases cs
    · exact absurd rfl hne
    · rfl
  simp [loopGen, hp, hcs]

/-- The loop after `n` consecutive tool-call rounds starting at call
index `k`: it reaches the forced-final path, with `n` tools-enabled
calls, one final call with tools disabled, the forced user message
appended last, and the final answer taken from provider call `k + n`. -/
theorem loopGen_all_dict (provider : Nat → GenResponse) (handler : ToolHandler)
    (tg : Bool) : ∀ (n k : Nat) (conv : List Message),
    (∀ d, d < n → ∃ t cs rep, provider (k + d) = .dict t cs rep ∧ cs ≠ []) →
    ∃ conv', loopGen provider handler tg k n conv
      = (finalAnswer (provider (k + n)), List.replicate n tg ++ [false],
         conv' ++ [forcedMsg]) := by
  intro n
  induction n with
  | zero =>
    intro k conv _
    exact ⟨conv, by simp [loopGen]⟩
  | succ m ih =>
    intro k conv hd
    obtain ⟨t, cs, rep, hp, hne⟩ := hd 0 (Nat.succ_pos m)
    rw [Nat.add_zero] at hp
    obtain ⟨conv', hrec⟩ := ih (k + 1) (conv ++ roundBlock handler t cs)
      (fun d hdm => by
        obtain ⟨t', cs', rep', hp', hne'⟩ := hd (d + 1) (by omega)
        exact ⟨t', cs', rep', by rw [← hp']; congr 1; omega, hne'⟩)
    rw [loopGen_dict_step provider handler tg k m conv hp hne, hrec]
    refine ⟨conv', ?_⟩
    have : k + 1 + m = k + (m + 1) := by omega
    rw [this]
    simp [List.replicate_succ]

/-- The loop when the provider raises at call `j` after `j` tool-call
rounds: the error-flagged string is returned after exactly `j + 1`
provider calls. -/
theorem loopGen_fail_at (provider : Nat → GenResponse) (handler : ToolHandler)
    (tg : Bool) : ∀ (j fuel k : Nat) (conv : List Message) (e : String),
    j < fuel →
    (∀ d, d < j → ∃ t cs rep, provider (k + d) = .dict t cs rep ∧ cs ≠ []) →
    provider (k + j) = .fail e →
    (loopGen provider handler tg k fuel conv).1 = "# Error: " ++ e
      ∧ (loopGen provider handler tg k fuel conv).2.1.length = j + 1 := by
  intro j
  induction j with
  | zero =>
    intro fuel k conv e hj _ hfail
    rw [Nat.add_zero] at hfail
    obtain ⟨f, rfl⟩ : ∃ f, fuel = f + 1 := ⟨fuel - 1, by omega⟩
    constructor <;> simp [loopGen, hfail]
  | succ m ih =>
    intro fuel k conv e hj hd hfail
    obtain ⟨f, rfl⟩ : ∃ f, fuel = f + 1 := ⟨fuel - 1, by omega⟩
    obtain ⟨t, cs, rep, hp, hne⟩ := hd 0 (Nat.succ_pos m)
    rw [Nat.add_zero] at hp
    have hrec := ih f (k + 1) (conv ++ roundBlock handler t cs) e (by omega)
      (fun d hdm => by
        obtain ⟨t', cs', rep', hp', hne'⟩ := hd (d + 1) (by omega)
        exact ⟨t', cs', rep', by rw [← hp']; congr 1; omega, hne'⟩)
      (by rw [← hfail]; congr 1; omega)
    rw [loopGen_dict_step provider handler tg k f conv hp hne]
    exact ⟨hrec.1, by simpa using hrec.2⟩

/-- C3: for every provider behaviour and every `maxRounds ≥ 1`, one
invocation of `LLMManager.generate` performs at most `maxRounds + 1`
provider calls (the result being a total function into `String`, a
string is always returned). -/
theorem C3_terminates_bounded (provider : Nat → GenResponse)
    (handler : ToolHandler) (tg : Bool) (messages : List Message)
    (maxIterations : Nat) (h : 1 ≤ maxIterations) :
    (generate provider handler tg messages maxIterations).2.1.length
      ≤ maxIterations + 1 :=
  loopGen_calls_le provider handler tg maxIterations 0 messages

/-- C3 witness: a provider that always requests tools, run with
`maxRounds = 2`, makes at most 3 provider calls. -/
theorem C3_witness :
    1 ≤ 2 ∧ (generate provLoop okHandler true [userMsg] 2).2.1.length ≤ 2 + 1 :=
  ⟨by decide, C3_terminates_bounded provLoop okHandler true [userMsg] 2 (by decide)⟩

/-- C5: if the provider call of round `j + 1` (0-based call `j`, within
the round budget) raises after `j` tool-call rounds, the loop returns
immediately: the result is the error-flagged string `"# Error: " + e`
(which starts with `#`), and exactly `j + 1` provider calls were made —
no retry, no further calls. -/
theorem C5_provider_failure_aborts (provider : Nat → GenResponse)
    (handler : ToolHandler) (tg : Bool) (messages : List Message)
    (maxIterations j : Nat) (e : String) (hj : j < maxIterations)
    (hd : ∀ d, d < j → ∃ t cs rep, provider d = .dict t cs rep ∧ cs ≠ [])
    (hfail : provider j = .fail e) :
    (generate provider handler tg messages maxIterations).1 = "# Error: " ++ e
      ∧ (generate provider handler tg messages maxIterations).2.1.length = j + 1
      ∧ ∃ rest, (generate provider handler tg messages maxIterations).1
          = "#" ++ rest := by
  simp only [generate]
  have := loopGen_fail_at provider handler tg j maxIterations 0 messages e hj
    (fun d hdm => by simpa using hd d hdm) (by simpa using hfail)
  refine ⟨this.1, this.2, " Error: " ++ e, ?_⟩
  rw [this.1, ← String.append_assoc]
  rfl

/-- C5 witness: a provider raising on its first call aborts after one
call with an error-flagged result. -/
theorem C5_witness :
    (generate provFail okHandler true [userMsg] 5).1 = "# Error: " ++ "network down"
      ∧ (generate provFail okHandler true [userMsg] 5).2.1.length = 0 + 1
      ∧ ∃ rest, (generate provFail okHandler true [userMsg] 5).1 = "#" ++ rest :=
  C5_provider_failure_aborts provFail okHandler true [userMsg] 5 0 "network down"
    (by decide) (fun d hd => absurd hd (by omega)) rfl

/-- C6: when all `maxRounds` in-loop provider calls request tools, the
loop appends the synthetic user message, issues exactly one additional
call with tools disabled (`false` in the trace), and returns that
call's text — or the `#`-flagged error string if that final call
raises. -/
theorem C6_round_budget_forces_final (provider : Nat → GenResponse)
    (handler : ToolHandler) (tg : Bool) (messages : List Message)
    (maxIterations : Nat)
    (hd : ∀ d, d < maxIterations → ∃ t cs rep, provider d = .dict t cs rep ∧ cs ≠ []) :
    (generate provider handler tg messages maxIterations).2.1
        = List.replicate maxIterations tg ++ [false]
      ∧ (generate provider handler tg messages maxIterations).1
          = finalAnswer (provider maxIterations)
      ∧ (∃ conv', (generate provider handler tg messages maxIterations).2.2
          = conv' ++ [forcedMsg])
      ∧ (∀ s, provider maxIterations = .text s →
          (generate provider handler tg messages maxIterations).1 = s)
      ∧ (∀ e, provider maxIterations = .fail e →
          (generate provider handler tg messages maxIterations).1
              = "# Error after max iterations: " ++ e
            ∧ ∃ rest, (generate provider handler tg messages maxIterations).1
                = "#" ++ rest) := by
  obtain ⟨conv', hrun⟩ := loopGen_all_dict provider handler tg maxIterations 0 messages
    (fun d hdm => by simpa using hd d hdm)
  rw [Nat.zero_add] at hrun
  simp only [generate]
  rw [hrun]
  refine ⟨rfl, rfl, ⟨conv', rfl⟩, ?_, ?_⟩
  · intro s hs; rw [hs]; rfl
  · intro e he
    rw [he]
    refine ⟨rfl, " Error after max iterations: " ++ e, ?_⟩
    show "# Error after max iterations: " ++ e = _
    rw [← String.append_assoc]
    rfl

/-! ## `execute_tool` error classification -/

/-- Shift a literal split across an append: from `a = b ++ c` conclude
`a ++ r = b ++ (c ++ r)`. -/
theorem append_shift {a b c r : String} (h : a = b ++ c) :
    a ++ r = b ++ (c ++ r) := by
  rw [h, String.append_assoc]

theorem resolveSafePath_error {p : String} {cwd : List String} {e : String}
    (h : resolveSafePath p cwd = .error e) :
    e = "Path traversal blocked: " ++ p := by
  simp only [resolveSafePath] at h
  split at h
  · cases h
  · cases h; rfl

theorem withSafePath_error {p : String} {cwd : List String}
    {body : List String → Chars} {e : String}
    (h : withSafePath p cwd body = .error e) :
    ∃ r, e = "Path traversal blocked: " ++ r := by
  unfold withSafePath at h
  cases hr : resolveSafePath p cwd with
  | error e' =>
    rw [hr] at h
    cases h
    exact ⟨p, resolveSafePath_error hr⟩
  | ok target => rw [hr] at h; cases h

theorem except_bind_error {α β : Type} {x : Except String α}
    {f : α → Except String β} {e : String} (h : x.bind f = .error e) :
    x = .error e ∨ ∃ a, x = .ok a ∧ f a = .error e := by
  cases x with
  | error e' => left; simpa [Except.bind] using h
  | ok a => right; exact ⟨a, rfl, by simpa [Except.bind] using h⟩

theorem getStrArg_error {args : ToolArgs} {k e : String}
    (h : getStrArg args k = .error e) :
    (∃ r, e = "KeyError: " ++ r) ∨ ∃ r, e = "TypeError: " ++ r := by
  unfold getStrArg at h
  split at h
  · cases h
  · cases h
    right
    refine ⟨"argument '" ++ k ++ "' is not a string", ?_⟩
    simp only [String.append_assoc]
    exact append_shift (by decide)
  · cases h
    left
    refine ⟨"'" ++ k ++ "'", ?_⟩
    simp only [String.append_assoc]
    exact append_shift (by decide)

theorem getStrArgD_error {args : ToolArgs} {k dflt e : String}
    (h : getStrArgD args k dflt = .error e) : ∃ r, e = "TypeError: " ++ r := by
  unfold getStrArgD at h
  split at h
  · cases h
  · cases h
    refine ⟨"argument '" ++ k ++ "' is not a string", ?_⟩
    simp only [String.append_assoc]
    exact append_shift (by decide)
  · cases h

theorem getIntArg_error {args : ToolArgs} {k e : String}
    (h : getIntArg args k = .error e) :
    (∃ r, e = "KeyError: " ++ r) ∨ ∃ r, e = "TypeError: " ++ r := by
  unfold getIntArg at h
  split at h
  · cases h
  · cases h
    right
    refine ⟨"argument '" ++ k ++ "' is not an integer", ?_⟩
    simp only [String.append_assoc]
    exact append_shift (by decide)
  · cases h
    left
    refine ⟨"'" ++ k ++ "'", ?_⟩
    simp only [String.append_assoc]
    exact append_shift (by decide)

theorem getIntArgD_error {args : ToolArgs} {k e : String} {dflt : Int}
    (h : getIntArgD args k dflt = .error e) : ∃ r, e = "TypeError: " ++ r := by
  unfold getIntArgD at h
  split at h
  · cases h
  · cases h
    refine ⟨"argument '" ++ k ++ "' is not an integer", ?_⟩
    simp only [String.append_assoc]
    exact append_shift (by decide)
  · cases h

/-- The three exception shapes `execute_tool` can let escape. -/
def ExnShape (e : String) : Prop :=
  (∃ r, e = "Path traversal blocked: " ++ r)
    ∨ (∃ r, e = "KeyError: " ++ r) ∨ ∃ r, e = "TypeError: " ++ r

/-- C2 (amended): the dispatcher returns a string for unknown tool
names (never an exception there), but it is *not* exception-free: the
only exceptions that escape are the traversal `ValueError` from
`_resolve_safe_path` and the `KeyError`/`TypeError` from argument
access — every `.error` outcome has one of these three shapes. -/
theorem C2_amended_dispatcher (fs : FS) (name : String) (args : ToolArgs)
    (cwd : List String) :
    (name ∉ (["read_file", "list_directory", "search_files", "grep_files",
        "read_lines"] : List String) →
      execute_tool fs name args cwd
        = .ok (cstr "Error: Unknown tool '" ++ cstr name ++ cstr "'"))
    ∧ ∀ e, execute_tool fs name args cwd = .error e → ExnShape e := by
  constructor
  · intro hname
    simp only [List.mem_cons, List.mem_singleton, not_or] at hname
    obtain ⟨h1, h2, h3, h4, h5, _⟩ := hname
    simp [execute_tool, h1, h2, h3, h4, h5]
  · intro e h
    unfold execute_tool at h
    split_ifs at h with n1 n2 n3 n4 n5
    · rcases except_bind_error h with hs | ⟨a, _, hf⟩
      · exact Or.inr (getStrArg_error hs)
      · exact Or.inl (withSafePath_error hf)
    · rcases except_bind_error h with hs | ⟨a, _, hf⟩
      · exact Or.inr (Or.inr (getStrArgD_error hs))
      · rcases except_bind_error hf with hs' | ⟨d, _, hf'⟩
        · exact Or.inr (Or.inr (getIntArgD_error hs'))
        · exact Or.inl (withSafePath_error hf')
    · rcases except_bind_error h with hs | ⟨a, _, hf⟩
      · exact Or.inr (getStrArg_error hs)
      · rcases except_bind_error hf with hs' | ⟨p, _, hf'⟩
        · exact Or.inr (Or.inr (getStrArgD_error hs'))
        · exact Or.inl (withSafePath_error hf')
    · rcases except_bind_error h with hs | ⟨a, _, hf⟩
      · exact Or.inr (getStrArg_error hs)
      · rcases except_bind_error hf with hs' | ⟨p, _, hf'⟩
        · exact Or.inr (Or.inr (getStrArgD_error hs'))
        · exact Or.inl (withSafePath_error hf')
    · rcases except_bind_error h with hs | ⟨a, _, hf⟩
      · exact Or.inr (getStrArg_error hs)
      · rcases except_bind_error hf with hs' | ⟨s, _, hf'⟩
        · exact Or.inr (getIntArg_error hs')
        · rcases except_bind_error hf' with hs'' | ⟨t, _, hf''⟩
          · exact Or.inr (getIntArg_error hs'')
          · exact Or.inl (withSafePath_error hf'')

/-! ## `read_lines` characterization -/

theorem numberLines_eq_range' (lines : List Chars) :
    ∀ (cnt a : Nat), a + cnt ≤ lines.length →
    numberLines ((a : Int) + 1) ((lines.drop a).take cnt)
      = (List.range' (a + 1) cnt).map fun i =>
          cstr (toString i) ++ cstr ": " ++ lines.getD (i - 1) [] := by
  intro cnt
  induction cnt with
  | zero => intro a _; simp [numberLines]
  | succ m ih =>
    intro a h
    have ha : a < lines.length := by omega
    rw [List.drop_eq_getElem_cons ha, List.take_succ_cons]
    rw [List.range'_succ (a + 1) m 1]
    simp only [numberLines, List.map_cons]
    have hcast : ((a : Int) + 1) = ((a + 1 : Nat) : Int) := by push_cast; ring
    refine List.cons_eq_cons.mpr ⟨?_, ?_⟩
    · rw [hcast]
      have hts : toString ((a + 1 : Nat) : Int) = toString (a + 1) := rfl
      rw [hts]
      have hd : lines.getD (a + 1 - 1) [] = lines[a] := by
        rw [Nat.add_sub_cancel]
        exact List.getD_eq_getElem lines [] ha
      rw [hd]
    · have hstep : ((a : Int) + 1 + 1) = (((a + 1 : Nat) : Int) + 1) := by push_cast; ring
      rw [hstep]
      have hih := ih (a + 1) (by omega)
      rw [hih]

/-- C10 (amended): `read_lines` on an existing non-binary file matches
the independent characterization `readLinesSpec`: `start` is clamped up
to 1 and `end` down to the line count; an error string results exactly
when the clamped start exceeds the line count; otherwise the header is
followed by the lines numbered by index from the clamped start up to the
Python slice stop, where a *negative* clamped end counts from the end of
the file — so for `0 ≤ end < start` the body is empty, but not for
negative `end`. -/
theorem C10_read_lines_characterized (fs : FS) (path : String)
    (start endL : Int) (cwd target : List String) (sz : Nat) (lines : List Chars)
    (hres : resolveSafePath path cwd = .ok target)
    (hlook : fs.lookup target = some (.file sz false lines)) :
    read_lines fs path start endL cwd = .ok (readLinesSpec start endL lines) := by
  unfold read_lines withSafePath
  rw [hres]
  dsimp only
  rw [hlook]
  simp only [readLinesSpec, Bool.false_eq_true, if_false]
  by_cases hgt : (lines.length : Int) < max 1 start
  · rw [if_pos hgt, if_pos hgt]
  · rw [if_neg hgt, if_neg hgt]
    have h1 : (1 : Int) ≤ max 1 start := le_max_left 1 start
    have hle : max 1 start ≤ (lines.length : Int) := not_lt.mp hgt
    congr 2
    set st := max 1 start with hst
    set e := min endL (lines.length : Int) with he
    have hetot : e ≤ (lines.length : Int) := min_le_right _ _
    have ha1 : ((((st - 1).toNat : Nat) : Int) + 1) = st := by omega
    have hsa : st.toNat = (st - 1).toNat + 1 := by omega
    have hstop : pySliceStop lines.length e
        = (if e < 0 then (e + lines.length).toNat else e.toNat) := by
      unfold pySliceStop
      split
      · rfl
      · omega
    have hbound : (st - 1).toNat
        + (pySliceStop lines.length e - (st - 1).toNat) ≤ lines.length := by
      rw [hstop]
      split <;> omega
    have := numberLines_eq_range' lines
      (pySliceStop lines.length e - (st - 1).toNat) (st - 1).toNat hbound
    rw [ha1] at this
    rw [this, hsa, hstop]
    have hcnt : (if e < 0 then (e + (lines.length : Int)).toNat else e.toNat) + 1
        - ((st - 1).toNat + 1)
        = (if e < 0 then (e + (lines.length : Int)).toNat else e.toNat)
          - (st - 1).toNat := by omega
    rw [hcnt]

/-- C10 witness: the characterization instantiated on the three-line
fixture with an in-range request. -/
theorem C10_witness :
    read_lines threeFS "a.txt" 2 3 [] = .ok (readLinesSpec 2 3 threeLines) :=
  C10_read_lines_characterized threeFS "a.txt" 2 3 [] ["a.txt"] 18 threeLines
    (by decide) (by decide)

/-! ## Output-normalizer identity lemmas -/

theorem dropWhile_cons_false {p : Char → Bool} {x : Char} {l : Chars}
    (h : p x = false) : (x :: l).dropWhile p = x :: l := by
  simp [List.dropWhile, h]

theorem dropWhile_id_of_head {p : Char → Bool} {c : Chars} (hne : c ≠ [])
    (hh : p (c.headD ' ') = false) : c.dropWhile p = c := by
  cases c with
  | nil => rfl
  | cons x t => exact dropWhile_cons_false (by simpa using hh)

theorem headD_reverse (c : Chars) (d : Char) : c.reverse.headD d = c.getLastD d := by
  rw [List.headD_eq_head?_getD, List.head?_reverse, List.getLastD_eq_getLast?]

theorem stripRight_id_of_last {p : Char → Bool} {c : Chars} (hne : c ≠ [])
    (hl : p (c.getLastD ' ') = false) : stripRight p c = c := by
  unfold stripRight
  rw [dropWhile_id_of_head (by simpa using hne) (by rw [headD_reverse]; exact hl),
    List.reverse_reverse]

theorem pyStrip_id {c : Chars} (hne : c ≠ []) (hh : pyWS (c.headD ' ') = false)
    (hl : pyWS (c.getLastD ' ') = false) : pyStrip c = c := by
  unfold pyStrip
  rw [dropWhile_id_of_head hne hh]
  exact stripRight_id_of_last hne hl

theorem splitOnChar_ne_nil (sep : Char) : ∀ s : Chars, splitOnChar sep s ≠ [] := by
  intro s
  cases s with
  | nil => simp [splitOnChar]
  | cons c rest =>
    simp only [splitOnChar]
    split
    · simp
    · split <;> simp

theorem splitOnChar_no_sep {sep : Char} : ∀ {s : Chars},
    (∀ x ∈ s, x ≠ sep) → splitOnChar sep s = [s] := by
  intro s
  induction s with
  | nil => intro _; rfl
  | cons x t ih =>
    intro h
    have hx : ¬(x = sep) := h x (List.mem_cons_self x t)
    simp only [splitOnChar, if_neg hx]
    rw [ih (fun y hy => h y (List.mem_cons_of_mem x hy))]

theorem splitOnChar_append {sep : Char} {b : Chars} : ∀ {a : Chars},
    (∀ x ∈ a, x ≠ sep) →
    splitOnChar sep (a ++ sep :: b) = a :: splitOnChar sep b := by
  intro a
  induction a with
  | nil => intro _; simp [splitOnChar]
  | cons x t ih =>
    intro h
    have hx : ¬(x = sep) := h x (List.mem_cons_self x t)
    simp only [List.cons_append, splitOnChar, if_neg hx, List.append_eq]
    rw [ih (fun y hy => h y (List.mem_cons_of_mem x hy))]

theorem joinNL_single (c : Chars) : joinNL [c] = c := by
  simp [joinNL, List.intercalate]

theorem contains_false {a : Char} {l : Chars} (h : ∀ x ∈ l, x ≠ a) :
    l.contains a = false := by
  rw [List.contains_eq_any_beq]
  simp only [List.any_eq_false, beq_iff_eq]
  intro x hx
  exact fun he => (h x hx) he.symm

theorem containsSub_false {n0 : Char} {ns : Chars} : ∀ {l : Chars},
    (∀ x ∈ l, x ≠ n0) → containsSub (n0 :: ns) l = false := by
  intro l
  induction l with
  | nil => intro _; rfl
  | cons x t ih =>
    intro h
    have hx : ¬(n0 = x) := fun he => (h x (List.mem_cons_self x t)) he.symm
    simp only [containsSub, List.isPrefixOf, Bool.or_eq_false_iff]
    constructor
    · simp [beq_eq_false_iff_ne, hx]
    · exact ih (fun y hy => h y (List.mem_cons_of_mem x hy))

theorem tryMatch_cons_ne {x : Char} {r : Chars} (hx : x ≠ '<') :
    tryMatch (x :: r) = none := by
  unfold tryMatch dropLit
  have h1 : (cstr "<function=").isPrefixOf (x :: r) = false := by
    rw [show cstr "<function=" = '<' :: cstr "function=" from rfl]
    simp only [List.isPrefixOf, Bool.and_eq_false_iff]
    left
    simp [beq_eq_false_iff_ne]
    exact fun he => hx he.symm
  simp [h1]

theorem fnSub_all_ne : ∀ {c : Chars}, (∀ x ∈ c, x ≠ '<') → fnSub c = c := by
  intro c
  induction c with
  | nil => intro _; rfl
  | cons x t ih =>
    intro h
    rw [fnSub_cons, tryMatch_cons_ne (h x (List.mem_cons_self x t))]
    rw [ih (fun y hy => h y (List.mem_cons_of_mem x hy))]

/-- On a string passing the residual-artifact check, every step of
`_clean_command` is the identity. -/
theorem cleanCommand_fixedpoint {r : Chars} (h : isNormalized r = true) :
    cleanCommand r = r := by
  simp only [isNormalized, Bool.and_eq_true, beq_iff_eq, Bool.not_eq_true',
    decide_eq_true_eq] at h
  obtain ⟨⟨⟨⟨⟨h1, h2⟩, h3⟩, h4⟩, h5⟩, h6⟩ := h
  rw [h1] at h6
  unfold cleanCommand
  rw [h1]
  unfold stripFence
  simp only [h2, Bool.false_eq_true, if_false]
  unfold stripTickWrap
  simp only [h3, Bool.false_eq_true, if_false]
  rw [h4]
  unfold stripDollar
  simp only [h5, Bool.false_eq_true, if_false]
  simp only [pickLastLine]
  rw [h1]
  rw [if_neg (by omega)]
  exact h1

/-- C7 (amended): the normalizer is idempotent exactly on inputs whose
normalized output carries no residual artifact — it is stripped, not
fence- or backtick-wrapped, unchanged by the markup regex, has no
leading `"$ "`, and has at most one non-empty line (`isNormalized`).
For such inputs a second application is the identity; the
counterexample shows idempotence fails in general. -/
theorem C7_amended_idempotent_on_normalized (s : Chars)
    (h : isNormalized (cleanCommand s) = true) :
    cleanCommand (cleanCommand s) = cleanCommand s :=
  cleanCommand_fixedpoint h

/-- C7 witness: a plain fenced command normalizes to an artifact-free
output, on which the normalizer is idempotent. -/
theorem C7_witness :
    isNormalized (cleanCommand (cstr "```\nls -la\n```")) = true
      ∧ cleanCommand (cleanCommand (cstr "```\nls -la\n```"))
          = cleanCommand (cstr "```\nls -la\n```") :=
  ⟨by decide, C7_amended_idempotent_on_normalized _ (by decide)⟩

/-! ## Normalizer behaviour on well-formed wrapped commands -/

theorem startsWithLit_append (lit rest : Chars) :
    startsWithLit lit (lit ++ rest) = true := by
  unfold startsWithLit
  exact List.isPrefixOf_iff_prefix.mpr ⟨rest, rfl⟩

theorem endsWithLit_append (s lit : Chars) : endsWithLit lit (s ++ lit) = true := by
  unfold endsWithLit
  rw [List.length_append, Nat.add_sub_cancel, List.drop_left]
  simp

theorem startsWithLit_cons_ne {l0 x : Char} {ls t : Chars} (h : x ≠ l0) :
    startsWithLit (l0 :: ls) (x :: t) = false := by
  simp only [startsWithLit, List.isPrefixOf, Bool.and_eq_false_iff]
  left
  simp [beq_eq_false_iff_ne]
  exact fun he => h he.symm

theorem getLastD_append_singleton (l : Chars) (a d : Char) :
    (l ++ [a]).getLastD d = a := by
  rw [List.getLastD_eq_getLast?, List.getLast?_concat]
  rfl

/-- A `goodCmd` command is its own normal form. -/
theorem goodCmd_isNormalized {c : Chars} (h : goodCmd c = true) :
    isNormalized c = true := by
  simp only [goodCmd, Bool.and_eq_true, Bool.not_eq_true', List.all_eq_true,
    decide_eq_true_eq] at h
  obtain ⟨⟨⟨⟨hne', hall⟩, hh⟩, hl⟩, hd⟩ := h
  have hne : c ≠ [] := by
    cases c
    · simp at hne'
    · simp
  have htick : ∀ a ∈ c, a ≠ '`' := fun a ha => (hall a ha).1.2
  have hnl : ∀ a ∈ c, a ≠ '\n' := fun a ha => (hall a ha).1.1
  have hlt : ∀ a ∈ c, a ≠ '<' := fun a ha => (hall a ha).2
  obtain ⟨x, t, rfl⟩ : ∃ x t, c = x :: t := by
    cases c
    · exact absurd rfl hne
    · exact ⟨_, _, rfl⟩
  have hx : x ≠ '`' := htick x (List.mem_cons_self x t)
  simp only [isNormalized, Bool.and_eq_true, beq_iff_eq, Bool.not_eq_true',
    decide_eq_true_eq]
  refine ⟨⟨⟨⟨⟨pyStrip_id hne hh hl, ?_⟩, ?_⟩, fnSub_all_ne hlt⟩, hd⟩, ?_⟩
  · rw [show cstr "```" = '`' :: cstr "``" from rfl, startsWithLit_cons_ne hx]
    rfl
  · rw [show cstr "`" = '`' :: ([] : Chars) from rfl, startsWithLit_cons_ne hx]
    rfl
  · rw [pyStrip_id hne hh hl, splitNL, splitOnChar_no_sep hnl]
    simp only [List.map_cons, List.map_nil, pyStrip_id hne hh hl]
    rw [List.filter_cons_of_pos (by simpa using hne)]
    simp

/-- Step 7 ∘ step 6 of `_clean_command` fix a `goodCmd` command. -/
theorem pickStrip_id {c : Chars} (h : goodCmd c = true) :
    pyStrip (pickLastLine c) = c := by
  have hn := goodCmd_isNormalized h
  simp only [isNormalized, Bool.and_eq_true, beq_iff_eq, Bool.not_eq_true',
    decide_eq_true_eq] at hn
  obtain ⟨⟨⟨⟨⟨h1, _⟩, _⟩, _⟩, _⟩, h6⟩ := hn
  rw [h1] at h6
  simp only [pickLastLine]
  rw [h1]
  rw [if_neg (by omega)]
  exact h1

/-- Steps 4-7 of `_clean_command` fix a `goodCmd` command. -/
theorem cleanTail2_id {c : Chars} (h : goodCmd c = true) :
    pyStrip (pickLastLine (stripDollar (fnSub c))) = c := by
  have hn := goodCmd_isNormalized h
  simp only [isNormalized, Bool.and_eq_true, beq_iff_eq, Bool.not_eq_true',
    decide_eq_true_eq] at hn
  obtain ⟨⟨⟨⟨⟨_, _⟩, _⟩, h4⟩, h5⟩, _⟩ := hn
  rw [h4]
  unfold stripDollar
  simp only [h5, Bool.false_eq_true, if_false]
  exact pickStrip_id h

/-- Steps 3-7 of `_clean_command` fix a `goodCmd` command. -/
theorem cleanTail_id {c : Chars} (h : goodCmd c = true) :
    pyStrip (pickLastLine (stripDollar (fnSub (stripTickWrap c)))) = c := by
  have hn := goodCmd_isNormalized h
  simp only [isNormalized, Bool.and_eq_true, beq_iff_eq, Bool.not_eq_true',
    decide_eq_true_eq] at hn
  obtain ⟨⟨⟨⟨⟨_, _⟩, h3⟩, _⟩, _⟩, _⟩ := hn
  unfold stripTickWrap
  simp only [h3, Bool.false_eq_true, if_false]
  exact cleanTail2_id h

theorem getLastD_mem : ∀ {l : Chars}, l ≠ [] → ∀ d : Char, l.getLastD d ∈ l := by
  intro l
  induction l with
  | nil => intro h; exact absurd rfl h
  | cons x t ih =>
    intro _ d
    cases ht : t with
    | nil => simp [List.getLastD]
    | cons y u =>
      rw [List.getLastD_cons]
      right
      rw [← ht]
      exact ih (by simp [ht]) x

/-- C8 (amended): on a well-formed single-line command — non-empty, no
newline/backtick/`<`, whitespace-trimmed at both ends, no leading
`"$ "` — the normalizer maps the fence-wrapped, single-line
backtick-wrapped, `"$ "`-prefixed and bare forms all to the bare
command, which contains no fence marker, does not begin with `"$ "`,
contains no pseudo-function-call markup, and is non-empty.  (The
counterexample shows these guarantees fail for arbitrary raw model
text.) -/
theorem C8_amended_clean_good_forms (c : Chars) (h : goodCmd c = true) :
    cleanCommand (fenceWrap c) = c
      ∧ cleanCommand (tickWrap c) = c
      ∧ cleanCommand (dollarWrap c) = c
      ∧ cleanCommand c = c
      ∧ containsSub (cstr "```") c = false
      ∧ startsWithLit (cstr "$ ") c = false
      ∧ containsSub (cstr "<function=") c = false
      ∧ c ≠ [] := by
  have hg := h
  simp only [goodCmd, Bool.and_eq_true, Bool.not_eq_true', List.all_eq_true,
    decide_eq_true_eq] at hg
  obtain ⟨⟨⟨⟨hne', hall⟩, hh⟩, hl⟩, hd⟩ := hg
  have hne : c ≠ [] := by
    cases c
    · simp at hne'
    · simp
  have htick : ∀ a ∈ c, a ≠ '`' := fun a ha => (hall a ha).1.2
  have hnl : ∀ a ∈ c, a ≠ '\n' := fun a ha => (hall a ha).1.1
  have hlt : ∀ a ∈ c, a ≠ '<' := fun a ha => (hall a ha).2
  obtain ⟨x, t, hc⟩ : ∃ x t, c = x :: t := by
    cases c
    · exact absurd rfl hne
    · exact ⟨_, _, rfl⟩
  have hx : x ≠ '`' := htick x (hc ▸ List.mem_cons_self x t)
  refine ⟨?_, ?_, ?_, cleanCommand_fixedpoint (goodCmd_isNormalized h), ?_, hd, ?_, hne⟩
  · -- fence-wrapped form
    unfold cleanCommand
    have hps : pyStrip (fenceWrap c) = fenceWrap c := by
      refine pyStrip_id (by simp [fenceWrap]) (by rfl) ?_
      rw [show fenceWrap c = (cstr "```" ++ '\n' :: c ++ ['\n', '`', '`']) ++ ['`'] by
        simp [fenceWrap, cstr]]
      rw [getLastD_append_singleton]
      rfl
    rw [hps]
    have hsf : stripFence (fenceWrap c) = c := by
      unfold stripFence
      have hst : startsWithLit (cstr "```") (fenceWrap c) = true := by
        unfold fenceWrap
        exact startsWithLit_append (cstr "```") _
      have hen : endsWithLit (cstr "```") (fenceWrap c) = true := by
        rw [show fenceWrap c = (cstr "```" ++ '\n' :: c ++ ['\n']) ++ cstr "```" by
          simp [fenceWrap, cstr]]
        exact endsWithLit_append _ _
      rw [hst, hen]
      rw [if_pos (by decide : ((true && true) = true))]
      have hsplit : splitNL (fenceWrap c) = [cstr "```", c, cstr "```"] := by
        rw [show fenceWrap c = cstr "```" ++ '\n' :: (c ++ '\n' :: cstr "```") by
          simp [fenceWrap]]
        rw [splitNL, splitOnChar_append (by decide)]
        rw [splitOnChar_append hnl]
        rw [splitOnChar_no_sep (by decide)]
      rw [hsplit]
      simp only [List.length_cons, List.length_nil]
      rw [if_pos (by omega)]
      simp only [List.drop_one, List.tail_cons, List.dropLast_cons₂,
        List.dropLast_single]
      rw [joinNL_single]
      exact pyStrip_id hne hh hl
    rw [hsf]
    exact cleanTail_id h
  · -- backtick-wrapped form
    unfold cleanCommand
    have hps : pyStrip (tickWrap c) = tickWrap c := by
      refine pyStrip_id (by simp [tickWrap]) (by rfl) ?_
      rw [show tickWrap c = ('`' :: c) ++ ['`'] by simp [tickWrap]]
      rw [getLastD_append_singleton]
      rfl
    rw [hps]
    have hsf : stripFence (tickWrap c) = tickWrap c := by
      unfold stripFence
      have hstf : startsWithLit (cstr "```") (tickWrap c) = false := by
        rw [hc]
        rw [show tickWrap (x :: t) = '`' :: x :: (t ++ ['`']) by simp [tickWrap]]
        rw [show cstr "```" = '`' :: '`' :: cstr "`" from rfl]
        simp only [startsWithLit, List.isPrefixOf, Bool.and_eq_false_iff]
        right
        left
        simp only [beq_eq_false_iff_ne, ne_eq]
        exact fun he => hx he.symm
      rw [hstf]
      simp only [Bool.false_and, Bool.false_eq_true, if_false]
    rw [hsf]
    have hstw : stripTickWrap (tickWrap c) = c := by
      unfold stripTickWrap
      have hst : startsWithLit (cstr "`") (tickWrap c) = true := by
        rw [show tickWrap c = cstr "`" ++ (c ++ ['`']) by simp [tickWrap, cstr]]
        exact startsWithLit_append _ _
      have hen : endsWithLit (cstr "`") (tickWrap c) = true := by
        rw [show tickWrap c = ('`' :: c) ++ cstr "`" by simp [tickWrap, cstr]]
        exact endsWithLit_append _ _
      have hcon : (tickWrap c).contains '\n' = false := by
        refine contains_false ?_
        intro y hy
        rw [show tickWrap c = ('`' :: c) ++ ['`'] by simp [tickWrap]] at hy
        rcases List.mem_append.mp hy with hy' | hy'
        · rcases List.mem_cons.mp hy' with rfl | hy''
          · decide
          · exact hnl y hy''
        · rw [List.mem_singleton.mp hy']
          decide
      rw [hst, hen, hcon]
      rw [if_pos (by decide : ((true && true && !false) = true))]
      unfold stripTicks
      rw [show tickWrap c = '`' :: (c ++ ['`']) by simp [tickWrap]]
      have hdw1 : ('`' :: (c ++ ['`'])).dropWhile (fun ch => ch = '`') = c ++ ['`'] := by
        rw [List.dropWhile_cons]
        simp only [decide_True, if_true]
        refine dropWhile_id_of_head (by simp) ?_
        rw [hc]
        simpa using hx
      rw [hdw1]
      unfold stripRight
      rw [List.reverse_append, List.reverse_singleton, List.singleton_append]
      rw [List.dropWhile_cons]
      simp only [decide_True, if_true]
      rw [dropWhile_id_of_head (by simpa using hne) ?hh2, List.reverse_reverse]
      case hh2 =>
        rw [headD_reverse]
        simpa using htick _ (getLastD_mem hne ' ')
    rw [hstw]
    exact cleanTail2_id h
  · -- "$ "-prefixed form
    unfold cleanCommand
    have hps : pyStrip (dollarWrap c) = dollarWrap c := by
      refine pyStrip_id (by simp [dollarWrap, cstr]) (by rfl) ?_
      rw [show dollarWrap c = '$' :: ' ' :: c from rfl]
      rw [List.getLastD_cons, List.getLastD_cons]
      cases hct : c with
      | nil => exact absurd hct hne
      | cons y u => rw [← hct]; exact hl
    rw [hps]
    have hsf : stripFence (dollarWrap c) = dollarWrap c := by
      unfold stripFence
      have hstf : startsWithLit (cstr "```") (dollarWrap c) = false := by
        rw [show dollarWrap c = '$' :: (' ' :: c) from rfl,
          show cstr "```" = '`' :: cstr "``" from rfl]
        exact startsWithLit_cons_ne (by decide)
      rw [hstf]
      simp only [Bool.false_and, Bool.false_eq_true, if_false]
    rw [hsf]
    have hstw : stripTickWrap (dollarWrap c) = dollarWrap c := by
      unfold stripTickWrap
      have hstf : startsWithLit (cstr "`") (dollarWrap c) = false := by
        rw [show dollarWrap c = '$' :: (' ' :: c) from rfl,
          show cstr "`" = '`' :: ([] : Chars) from rfl]
        exact startsWithLit_cons_ne (by decide)
      rw [hstf]
      simp only [Bool.false_and, Bool.false_eq_true, if_false]
    rw [hstw]
    have hfs : fnSub (dollarWrap c) = dollarWrap c := by
      apply fnSub_all_ne
      intro y hy
      rw [show dollarWrap c = '$' :: ' ' :: c from rfl] at hy
      rcases List.mem_cons.mp hy with rfl | hy'
      · decide
      · rcases List.mem_cons.mp hy' with rfl | hy''
        · decide
        · exact hlt y hy''
    rw [hfs]
    have hsd : stripDollar (dollarWrap c) = c := by
      unfold stripDollar
      have hstf : startsWithLit (cstr "$ ") (dollarWrap c) = true := by
        unfold dollarWrap
        exact startsWithLit_append _ _
      rw [if_pos hstf]
      rfl
    rw [hsd]
    exact pickStrip_id h
  · exact containsSub_false htick
  · exact containsSub_false hlt

/-- C8 witness: the spec's scenarios — a fenced `ls -la` and a
backtick-wrapped `git status` — normalize to the bare commands. -/
theorem C8_witness :
    goodCmd (cstr "git status") = true
      ∧ cleanCommand (fenceWrap (cstr "git status")) = cstr "git status"
      ∧ cleanCommand (tickWrap (cstr "git status")) = cstr "git status" :=
  ⟨by decide, (C8_amended_clean_good_forms (cstr "git status") (by decide)).1,
    (C8_amended_clean_good_forms (cstr "git status") (by decide)).2.1⟩

/-! ## Search/grep caps -/

theorem grepLines_le (rel cmpPat : Chars) (ic : Bool) :
    ∀ (ls : List Chars) (n : Nat) (acc : List Chars),
    acc.length < MAX_SEARCH_RESULTS →
    (grepLines rel cmpPat ic ls n acc).length ≤ MAX_SEARCH_RESULTS := by
  intro ls
  induction ls with
  | nil => intro n acc h; exact Nat.le_of_lt h
  | cons l rest ih =>
    intro n acc h
    simp only [grepLines]
    split
    · split
      · split
        · simp only [List.length_append, List.length_cons, List.length_nil]
          omega
        · rename_i hfull
          refine ih (n + 1) _ ?_
          simp only [ge_iff_le, not_le, List.length_append, List.length_cons,
            List.length_nil] at hfull ⊢
          omega
      · exact ih (n + 1) acc h
    · split
      · split
        · simp only [List.length_append, List.length_cons, List.length_nil]
          omega
        · rename_i hfull
          refine ih (n + 1) _ ?_
          simp only [ge_iff_le, not_le, List.length_append, List.length_cons,
            List.length_nil] at hfull ⊢
          omega
      · exact ih (n + 1) acc h

theorem grepScan_le (fs : FS) (target : List String) (cmpPat : Chars) (ic : Bool) :
    ∀ (ps : List (List String)) (scanned : Nat) (acc : List Chars),
    acc.length < MAX_SEARCH_RESULTS → scanned ≤ GREP_MAX_FILES →
    (grepScan fs target cmpPat ic ps scanned acc).2.length ≤ MAX_SEARCH_RESULTS
      ∧ (grepScan fs target cmpPat ic ps scanned acc).1 ≤ GREP_MAX_FILES := by
  intro ps
  induction ps with
  | nil => intro scanned acc h hs; exact ⟨Nat.le_of_lt h, hs⟩
  | cons p rest ih =>
    intro scanned acc h hs
    simp only [grepScan]
    by_cases hscan : scanned ≥ GREP_MAX_FILES
    · rw [if_pos hscan]
      exact ⟨Nat.le_of_lt h, hs⟩
    · rw [if_neg hscan]
      by_cases hnoise : p.any grepNoise = true
      · rw [if_pos hnoise]
        exact ih scanned acc h hs
      · rw [if_neg hnoise]
        cases hl : fs.lookup (target ++ p) with
        | none => exact ih scanned acc h hs
        | some nd =>
          cases nd with
          | dir => exact ih scanned acc h hs
          | file size bin lines =>
            dsimp only
            by_cases hsz : size > MAX_FILE_SIZE
            · rw [if_pos hsz]
              exact ih scanned acc h hs
            · rw [if_neg hsz]
              by_cases hbin : bin = true
              · rw [if_pos hbin]
                exact ih scanned acc h hs
              · rw [if_neg hbin]
                have hs' : scanned + 1 ≤ GREP_MAX_FILES := by
                  simp only [ge_iff_le, not_le] at hscan
                  omega
                have hacc : (grepLines (relStr p) cmpPat ic lines 1 acc).length
                    ≤ MAX_SEARCH_RESULTS :=
                  grepLines_le _ _ _ lines 1 acc h
                by_cases hfull : (grepLines (relStr p) cmpPat ic lines 1 acc).length
                    ≥ MAX_SEARCH_RESULTS
                · rw [if_pos hfull]
                  exact ⟨hacc, hs'⟩
                · rw [if_neg hfull]
                  refine ih (scanned + 1) _ ?_ hs'
                  simp only [ge_iff_le, not_le] at hfull
                  exact hfull

theorem searchCollect_le (target : List String) :
    ∀ (ps : List (List String)) (acc : List (List String)),
    acc.length < MAX_SEARCH_RESULTS →
    (searchCollect target ps acc).length ≤ MAX_SEARCH_RESULTS := by
  intro ps
  induction ps with
  | nil => intro acc h; exact Nat.le_of_lt h
  | cons p rest ih =>
    intro acc h
    simp only [searchCollect]
    split
    · exact ih acc h
    · split
      · rename_i hfull
        simpa using h
      · rename_i hfull
        exact ih _ (by simp only [List.length_append] at hfull ⊢; omega)

/-- `list_directory` only ever uses `min(depth, 3)`. -/
theorem list_directory_depth_capped (fs : FS) (path : String)
    (cwd : List String) (depth : Int) :
    list_directory fs path cwd depth
      = list_directory fs path cwd (min depth MAX_LIST_DEPTH) := by
  unfold list_directory
  congr 1
  funext target
  cases fs.lookup target with
  | none => rfl
  | some nd =>
    cases nd with
    | file s b l => rfl
    | dir => simp only [min_assoc, min_self]

/-- C9 (amended): `search_files` and `grep_files` cap their match lists
at 50 and append the truncation marker when exactly 50 matches are
produced; `grep_files` scans at most 200 files (silently skipping
oversized and binary files); `list_directory` caps its recursion depth
via `min(depth, 3)` — but, per the counterexample, `list_directory` has
no 50-entry cap and no truncation marker, and the depth/file-count/size
caps produce no markers either. -/
theorem C9_amended_caps :
    (∀ (fs : FS) (target : List String) (pattern : String) (ic : Bool),
      (grepResult fs target pattern ic).2.length ≤ MAX_SEARCH_RESULTS
        ∧ (grepResult fs target pattern ic).1 ≤ GREP_MAX_FILES)
    ∧ (∀ (fs : FS) (target : List String) (pattern : String),
        (searchResult fs target pattern).length ≤ MAX_SEARCH_RESULTS)
    ∧ (∀ (fs : FS) (path : String) (cwd : List String) (depth : Int),
        list_directory fs path cwd depth
          = list_directory fs path cwd (min depth MAX_LIST_DEPTH))
    ∧ (∀ (fs : FS) (path pattern : String) (cwd target : List String) (ic : Bool),
        resolveSafePath path cwd = .ok target →
        fs.lookup target = some .dir →
        (grepResult fs target pattern ic).2.length = MAX_SEARCH_RESULTS →
        grep_files fs pattern path cwd ic
          = .ok (joinNL (grepResult fs target pattern ic).2
              ++ cstr "\n\n[Truncated: showing first "
              ++ cstr (toString MAX_SEARCH_RESULTS) ++ cstr " matches]"))
    ∧ (∀ (fs : FS) (path pattern : String) (cwd target : List String),
        resolveSafePath path cwd = .ok target →
        fs.lookup target = some .dir →
        (searchResult fs target pattern).length = MAX_SEARCH_RESULTS →
        search_files fs pattern path cwd
          = .ok (joinNL ((searchResult fs target pattern).map relStr)
              ++ cstr "\n\n[Truncated: showing first "
              ++ cstr (toString MAX_SEARCH_RESULTS) ++ cstr " results]")) := by
  refine ⟨?_, ?_, list_directory_depth_capped, ?_, ?_⟩
  · intro fs target pattern ic
    exact grepScan_le fs target _ ic _ 0 [] (by decide) (by decide)
  · intro fs target pattern
    exact searchCollect_le target _ [] (by decide)
  · intro fs path pattern cwd target ic hres hlook hlen
    unfold grep_files withSafePath
    rw [hres]
    dsimp only
    rw [hlook]
    have hne : (grepResult fs target pattern ic).2 ≠ [] := by
      intro hnil
      rw [hnil] at hlen
      simp [MAX_SEARCH_RESULTS] at hlen
    rw [if_neg hne, if_pos hlen]
  · intro fs path pattern cwd target hres hlook hlen
    unfold search_files withSafePath
    rw [hres]
    dsimp only
    rw [hlook]
    have hne : searchResult fs target pattern ≠ [] := by
      intro hnil
      rw [hnil] at hlen
      simp [MAX_SEARCH_RESULTS] at hlen
    rw [if_neg hne, if_pos hlen]

/-- C9 witness: on a directory whose single file has 60 matching lines,
`grep_files` returns exactly 50 matches followed by the truncation
marker. -/
theorem C9_witness :
    grep_files fiftyFS "x" "." [] true
      = .ok (joinNL (grepResult fiftyFS [] "x" true).2
          ++ cstr "\n\n[Truncated: showing first "
          ++ cstr (toString MAX_SEARCH_RESULTS) ++ cstr " matches]") :=
  C9_amended_caps.2.2.2.1 fiftyFS "." "x" [] [] true (by decide) (by decide)
    (by decide)

/-! ## Conversation linkage invariant (C4) -/

theorem assistantIds_cons (m : Message) (conv : List Message) :
    assistantIds (m :: conv)
      = (if m.role = "assistant" then m.tool_calls.map (·.id) else [])
        ++ assistantIds conv := by
  simp [assistantIds]

theorem assistantIds_append (a b : List Message) :
    assistantIds (a ++ b) = assistantIds a ++ assistantIds b := by
  simp [assistantIds]

theorem toolIds_cons (m : Message) (conv : List Message) :
    toolIds (m :: conv)
      = (if m.role = "tool" then m.tool_call_id.toList else []) ++ toolIds conv := by
  simp [toolIds]

theorem toolIds_append (a b : List Message) :
    toolIds (a ++ b) = toolIds a ++ toolIds b := by
  simp [toolIds]

theorem assistantIds_toolMsgs (handler : ToolHandler) : ∀ cs : List ToolCall,
    assistantIds (cs.map (toolResponseMsg handler)) = [] := by
  intro cs
  induction cs with
  | nil => rfl
  | cons tc rest ih =>
    rw [List.map_cons, assistantIds_cons, ih]
    simp [toolResponseMsg]

theorem toolIds_toolMsgs (handler : ToolHandler) : ∀ cs : List ToolCall,
    toolIds (cs.map (toolResponseMsg handler)) = cs.map (·.id) := by
  intro cs
  induction cs with
  | nil => rfl
  | cons tc rest ih =>
    rw [List.map_cons, toolIds_cons, ih]
    simp [toolResponseMsg]

theorem assistantIds_roundBlock (handler : ToolHandler) (t : Option String)
    (cs : List ToolCall) :
    assistantIds (roundBlock handler t cs) = cs.map (·.id) := by
  rw [roundBlock, assistantIds_cons, assistantIds_toolMsgs]
  simp [assistantMsg]

theorem toolIds_roundBlock (handler : ToolHandler) (t : Option String)
    (cs : List ToolCall) :
    toolIds (roundBlock handler t cs) = cs.map (·.id) := by
  rw [roundBlock, toolIds_cons, toolIds_toolMsgs]
  simp [assistantMsg]

theorem matchedPrior_of_no_tool {conv : List Message}
    (h : ∀ m ∈ conv, m.role ≠ "tool") : MatchedPrior conv := by
  intro pre m post hsplit hrole
  refine absurd hrole (h m ?_)
  rw [hsplit]
  exact List.mem_append.mpr (Or.inr (List.mem_cons_self m post))

theorem toolIds_nil_of_no_tool : ∀ {conv : List Message},
    (∀ m ∈ conv, m.role ≠ "tool") → toolIds conv = [] := by
  intro conv
  induction conv with
  | nil => intro _; rfl
  | cons m rest ih =>
    intro h
    rw [toolIds_cons, if_neg (h m (List.mem_cons_self m rest)),
      ih (fun m' hm' => h m' (List.mem_cons_of_mem m hm'))]
    rfl

/-- Appending one tool-call round block (fresh, duplicate-free ids)
preserves the linkage invariant. -/
theorem matchedPrior_append_round {conv : List Message} (handler : ToolHandler)
    {t : Option String} {cs : List ToolCall}
    (hm : MatchedPrior conv)
    (hnodup : (cs.map (·.id)).Nodup)
    (hdisj : ∀ i ∈ cs.map (·.id), i ∉ assistantIds conv) :
    MatchedPrior (conv ++ roundBlock handler t cs) := by
  intro pre m post hsplit hrole
  rcases List.append_eq_append_iff.mp hsplit with ⟨w, hpre, hblock⟩ | ⟨w, hconv, hmp⟩
  · -- `m` lies inside the appended block
    cases w with
    | nil =>
      simp only [List.nil_append] at hblock
      rw [roundBlock] at hblock
      injection hblock with hm1 _
      rw [← hm1] at hrole
      simp [assistantMsg] at hrole
    | cons w0 w' =>
      rw [roundBlock] at hblock
      injection hblock with hw0 hw'
      rw [List.append_eq] at hw'
      obtain ⟨cs1, cs2, hcs, hmap1, hmap2⟩ := List.map_eq_append_iff.mp hw'
      cases cs2 with
      | nil => simp at hmap2
      | cons tc cs2' =>
        rw [List.map_cons] at hmap2
        injection hmap2 with hmm hpost
        have htcid : tc.id ∈ cs.map (·.id) := by
          rw [hcs]
          simp
        refine ⟨tc.id, ?_, ?_, ?_⟩
        · rw [← hmm]; rfl
        · rw [hpre, assistantIds_append, List.count_append, ← hw0, ← hmap1,
            assistantIds_cons]
          rw [show (assistantMsg t cs).role = "assistant" from rfl, if_pos rfl]
          rw [show (assistantMsg t cs).tool_calls = cs from rfl]
          rw [assistantIds_toolMsgs, List.count_append,
            List.count_eq_zero_of_not_mem (hdisj tc.id htcid)]
          rw [List.count_eq_one_of_mem hnodup htcid]
          rfl
        · rw [← hmm, ← hpost, assistantIds_cons]
          rw [show (toolResponseMsg handler tc).role = "tool" from rfl]
          rw [if_neg (by decide), assistantIds_toolMsgs]
          rfl
  · -- `m` lies inside the original conversation (or at the boundary)
    cases w with
    | nil =>
      rw [List.nil_append, roundBlock] at hmp
      injection hmp with hm1 _
      rw [hm1] at hrole
      simp [assistantMsg] at hrole
    | cons w0 w' =>
      rw [List.cons_append] at hmp
      injection hmp with h1 h2
      subst h1
      obtain ⟨i, hid, hc1, hc0⟩ := hm pre m w' (by rw [hconv]) hrole
      refine ⟨i, hid, hc1, ?_⟩
      have hupost : m :: post = (m :: w') ++ roundBlock handler t cs := by
        rw [h2]
        rfl
      rw [hupost, assistantIds_append, List.count_append, hc0,
        assistantIds_roundBlock]
      have himem : i ∈ assistantIds conv := by
        rw [hconv, assistantIds_append]
        refine List.mem_append.mpr (Or.inl ?_)
        exact List.count_pos_iff.mp (by rw [hc1]; decide)
      rw [List.count_eq_zero_of_not_mem (fun hin => hdisj i hin himem)]

/-- Appending the forced user message preserves the linkage invariant. -/
theorem matchedPrior_append_user {conv : List Message} (hm : MatchedPrior conv) :
    MatchedPrior (conv ++ [forcedMsg]) := by
  intro pre m post hsplit hrole
  rcases List.append_eq_append_iff.mp hsplit with ⟨w, hpre, hblock⟩ | ⟨w, hconv, hmp⟩
  · cases w with
    | nil =>
      simp only [List.nil_append] at hblock
      injection hblock with hm1 _
      rw [← hm1] at hrole
      simp [forcedMsg] at hrole
    | cons w0 w' =>
      injection hblock with _ hw'
      exact absurd hw'.symm (by simp)
  · cases w with
    | nil =>
      rw [List.nil_append] at hmp
      injection hmp with hm1 _
      rw [hm1] at hrole
      simp [forcedMsg] at hrole
    | cons w0 w' =>
      rw [List.cons_append] at hmp
      injection hmp with h1 h2
      subst h1
      obtain ⟨i, hid, hc1, hc0⟩ := hm pre m w' (by rw [hconv]) hrole
      refine ⟨i, hid, hc1, ?_⟩
      have hupost : m :: post = (m :: w') ++ [forcedMsg] := by
        rw [h2]
        rfl
      rw [hupost, assistantIds_append, List.count_append, hc0]
      simp [assistantIds, forcedMsg]

/-- The loop preserves the linkage invariant, assuming the ids the
provider issues across the run are duplicate-free and fresh. -/
theorem loopGen_invariant (provider : Nat → GenResponse) (handler : ToolHandler)
    (tg : Bool) : ∀ (fuel k : Nat) (conv : List Message),
    MatchedPrior conv →
    toolIds conv = assistantIds conv →
    (assistantIds conv
        ++ (List.range' k fuel).flatMap (fun d => respIds (provider d))).Nodup →
    MatchedPrior (loopGen provider handler tg k fuel conv).2.2
      ∧ toolIds (loopGen provider handler tg k fuel conv).2.2
          = assistantIds (loopGen provider handler tg k fuel conv).2.2
      ∧ (assistantIds (loopGen provider handler tg k fuel conv).2.2).Nodup := by
  intro fuel
  induction fuel with
  | zero =>
    intro k conv h1 h2 h3
    simp only [loopGen]
    refine ⟨matchedPrior_append_user h1, ?_, ?_⟩
    · rw [toolIds_append, assistantIds_append, h2]
      simp [toolIds, assistantIds, forcedMsg]
    · rw [assistantIds_append]
      have : assistantIds [forcedMsg] = [] := by simp [assistantIds, forcedMsg]
      rw [this, List.append_nil]
      simpa using h3.of_append_left
  | succ f ih =>
    intro k conv h1 h2 h3
    simp only [loopGen]
    have hleft : (assistantIds conv).Nodup := h3.of_append_left
    cases hp : provider k with
    | fail e => exact ⟨h1, h2, hleft⟩
    | text s => exact ⟨h1, h2, hleft⟩
    | other rep => exact ⟨h1, h2, hleft⟩
    | dict t cs rep =>
      by_cases hcs : cs.isEmpty
      · simp only [hcs, if_true]
        exact ⟨h1, h2, hleft⟩
      · simp only [hcs, Bool.false_eq_true, if_false]
        have hsplitr : (List.range' k (f + 1)).flatMap (fun d => respIds (provider d))
            = cs.map (·.id)
              ++ (List.range' (k + 1) f).flatMap (fun d => respIds (provider d)) := by
          rw [List.range'_succ k f 1, List.flatMap_cons, hp]
          rfl
        rw [hsplitr] at h3
        have h3' : ((assistantIds conv ++ cs.map (·.id))
            ++ (List.range' (k + 1) f).flatMap (fun d => respIds (provider d))).Nodup := by
          rw [List.append_assoc]
          exact h3
        have hfresh : ∀ i ∈ cs.map (·.id), i ∉ assistantIds conv := by
          intro i hi hmem
          have := List.nodup_append.mp (h3'.of_append_left)
          exact this.2.2 hmem hi
        have hnodupcs : (cs.map (·.id)).Nodup :=
          (List.nodup_append.mp (h3'.of_append_left)).2.1
        have hconv' :
            assistantIds (conv ++ roundBlock handler t cs)
              = assistantIds conv ++ cs.map (·.id) := by
          rw [assistantIds_append, assistantIds_roundBlock]
        have := ih (k + 1) (conv ++ roundBlock handler t cs)
          (matchedPrior_append_round handler h1 hnodupcs hfresh)
          (by rw [toolIds_append, assistantIds_append, h2, toolIds_roundBlock,
              assistantIds_roundBlock])
          (by rw [hconv']; exact h3')
        exact this

/-- C4: whenever a round's provider response carries tool calls, the
loop appends exactly one assistant message carrying the text and the
`tool_calls`, then exactly one tool message per call (the handler's
result, or an `"Error: ..."` description when it raises) with that
call's id, in request order; consequently — starting from a history
with no tool messages and no assistant tool-call ids, with
duplicate-free provider-issued ids — the final conversation satisfies:
every tool message's `tool_call_id` names exactly one assistant
`tool_calls` entry strictly before it and none after it, the sequence
of tool `tool_call_id`s equals the sequence of assistant `tool_calls`
ids (same relative order), and those ids are duplicate-free. -/
theorem C4_tool_messages_linked (provider : Nat → GenResponse)
    (handler : ToolHandler) (tg : Bool) (messages : List Message)
    (maxIterations : Nat)
    (hinit : ∀ m ∈ messages, m.role ≠ "tool")
    (hids : assistantIds messages = [])
    (hnodup : ((List.range' 0 maxIterations).flatMap
        (fun d => respIds (provider d))).Nodup) :
    (∀ (k fuel : Nat) (conv : List Message) (t : Option String)
        (cs : List ToolCall) (rep : String),
        provider k = .dict t cs rep → cs ≠ [] →
        (loopGen provider handler tg k (fuel + 1) conv).2.2
          = (loopGen provider handler tg (k + 1) fuel
              (conv ++ assistantMsg t cs :: cs.map (toolResponseMsg handler))).2.2)
    ∧ MatchedPrior (generate provider handler tg messages maxIterations).2.2
    ∧ toolIds (generate provider handler tg messages maxIterations).2.2
        = assistantIds (generate provider handler tg messages maxIterations).2.2
    ∧ (assistantIds (generate provider handler tg messages maxIterations).2.2).Nodup := by
  refine ⟨?_, ?_⟩
  · intro k fuel conv t cs rep hp hne
    rw [loopGen_dict_step provider handler tg k fuel conv hp hne]
    rfl
  · simp only [generate]
    exact loopGen_invariant provider handler tg maxIterations 0 messages
      (matchedPrior_of_no_tool hinit)
      (by rw [toolIds_nil_of_no_tool hinit, hids])
      (by rw [hids]; simpa using hnodup)

/-- C4 witness: the invariant on the concrete one-round scenario. -/
theorem C4_witness :
    MatchedPrior (generate provOnce okHandler true [userMsg] 2).2.2
      ∧ toolIds (generate provOnce okHandler true [userMsg] 2).2.2
          = assistantIds (generate provOnce okHandler true [userMsg] 2).2.2
      ∧ (assistantIds (generate provOnce okHandler true [userMsg] 2).2.2).Nodup :=
  (C4_tool_messages_linked provOnce okHandler true [userMsg] 2
    (by decide) (by decide) (by decide)).2

/-- C2 witness: the traversal exception escaping `execute_tool` on a
blocked path has the classified shape. -/
theorem C2_witness :
    ExnShape "Path traversal blocked: ../../x" :=
  (C2_amended_dispatcher escapeFS "read_file" [("path", .str "../../x")]
    ["a", "b"]).2 "Path traversal blocked: ../../x" (by decide)

/-- C6 witness: the claim's scenario — `maxRounds = 1`, the model
immediately requests a tool call, the tool is executed and the forced
no-tools call's text `"ls -la"` is returned after a `[true, false]`
call trace. -/
theorem C6_witness :
    (generate provOnce okHandler true [userMsg] 1).2.1
        = List.replicate 1 true ++ [false]
      ∧ (generate provOnce okHandler true [userMsg] 1).1
          = finalAnswer (provOnce 1) := by
  have h := C6_round_budget_forces_final provOnce okHandler true [userMsg] 1
    (fun d hd => by
      have : d = 0 := by omega
      subst this
      exact ⟨_, _, _, rfl, by decide⟩)
  exact ⟨h.1, h.2.1⟩

end CliAI

